import Mathlib

/-!
# GitHub SCM provider (`pkg/services/scm_provider/github.go`)

A shallow embedding of `GithubProvider.ListRepos`, `GithubProvider.listBranches`
and `GithubProvider.RepoHasPath`.

* The go-github client is a record of functions from a request to its response
  (`github.Client`): the remote state is fixed while one operation runs.
* A Go slice is a `List`; the nil slice and the empty slice are both `[]`.
* A Go `(value, error)` return is a record with both components, `err = none`
  standing for the nil error.
* The two `for { ... }` loops have no bound in the source; here they take a
  fuel argument and yield `none` when it is used up.
* `ListRepos` and `listBranches` also yield the list of remote calls they made,
  in order.
-/

namespace github

/-- The type `github.ListOptions` (Go `int` fields): `Page` is 0 until a cursor
is set. -/
structure ListOptions where
  Page : Int
  PerPage : Int
deriving DecidableEq, Repr

/-- The part of `github.Response` the provider reads (Go `int` fields). -/
structure Response where
  StatusCode : Int
  NextPage : Int
deriving DecidableEq, Repr

/-- The type `github.User` (pointer fields are options). -/
structure User where
  Login : Option String
deriving DecidableEq, Repr

/-- The type `github.Repository`, restricted to the fields the provider reads. -/
structure Repository where
  Owner : Option User
  Name : Option String
  SSHURL : Option String
  CloneURL : Option String
  DefaultBranch : Option String
  Topics : List String
deriving DecidableEq, Repr

/-- The type `github.RepositoryCommit`. -/
structure RepositoryCommit where
  SHA : Option String
deriving DecidableEq, Repr

/-- The type `github.Branch`. -/
structure Branch where
  Name : Option String
  Commit : Option RepositoryCommit
deriving DecidableEq, Repr

/-- Nil-safe getter `(*User).GetLogin`, called on the pointer `Owner`. -/
def User.GetLogin (u : Option User) : String :=
  match u with
  | none => ""
  | some u => u.Login.getD ""

/-- Getter `(*Repository).GetName`. -/
def Repository.GetName (r : Repository) : String := r.Name.getD ""

/-- Getter `(*Repository).GetSSHURL`. -/
def Repository.GetSSHURL (r : Repository) : String := r.SSHURL.getD ""

/-- Getter `(*Repository).GetCloneURL`. -/
def Repository.GetCloneURL (r : Repository) : String := r.CloneURL.getD ""

/-- Getter `(*Repository).GetDefaultBranch`. -/
def Repository.GetDefaultBranch (r : Repository) : String := r.DefaultBranch.getD ""

/-- Getter `(*Branch).GetName`. -/
def Branch.GetName (b : Branch) : String := b.Name.getD ""

/-- Nil-safe getter `(*RepositoryCommit).GetSHA`, called on `branch.GetCommit()`. -/
def RepositoryCommit.GetSHA (c : Option RepositoryCommit) : String :=
  match c with
  | none => ""
  | some c => c.SHA.getD ""

/-- The calls of `client.Repositories` the provider uses. A list call answers
with an error or with its items and the response (whose `NextPage` is read);
`GetContents` answers with the response pointer and the error side by side,
since `RepoHasPath` inspects both. -/
structure Client where
  ListByOrg : String → ListOptions → Except String (List Repository × Response)
  GetBranch : String → String → String → Except String Branch
  ListBranches : String → String → ListOptions → Except String (List Branch × Response)
  GetContents : String → String → String → String → Option Response × Option String

end github

namespace scm_provider

set_option linter.dupNamespace false

/-- The record `scm_provider.Repository`. -/
structure Repository where
  Organization : String
  Repository : String
  URL : String
  Branch : String
  SHA : String
  Labels : List String
deriving DecidableEq, Repr

/-- The struct `GithubProvider`. -/
structure GithubProvider where
  client : github.Client
  organization : String
  allBranches : Bool

/-- A remote call made through the client. -/
inductive Call where
  | ListByOrg (org : String) (opt : github.ListOptions)
  | GetBranch (owner repo branch : String)
  | ListBranches (owner repo : String) (opt : github.ListOptions)
deriving DecidableEq, Repr

/-- The three errors `ListRepos` builds with `fmt.Errorf`. -/
inductive ListError where
  | listing (organization err : String)
  | unknownProtocol (cloneProtocol : String)
  | branches (login name err : String)
deriving DecidableEq, Repr

/-- The text `fmt.Errorf` gives each error of `ListRepos`. -/
def ListError.message : ListError → String
  | .listing organization err => "error listing repositories for " ++ organization ++ ": " ++ err
  | .unknownProtocol cloneProtocol => "unknown clone protocol for GitHub " ++ cloneProtocol
  | .branches login name err => "error listing branches for " ++ login ++ "/" ++ name ++ ": " ++ err

/-- What `listBranches` returns, with the remote calls it made. -/
structure BranchesResult where
  branches : List github.Branch
  err : Option String
  calls : List Call
deriving DecidableEq, Repr

/-- What `ListRepos` returns, with the remote calls it made. -/
structure ListResult where
  repos : List Repository
  err : Option ListError
  calls : List Call
deriving DecidableEq, Repr

/-- The paging loop of `listBranches` (lines 119-132). -/
def listBranchesLoop (client : github.Client) (login name : String) :
    Nat → github.ListOptions → List github.Branch → List Call → Option BranchesResult
  | 0, _, _, _ => none
  | fuel + 1, opt, branches, calls =>
    match client.ListBranches login name opt with
    | .error err => some ⟨[], some err, calls ++ [Call.ListBranches login name opt]⟩
    | .ok (githubBranches, resp) =>
      if resp.NextPage = 0 then
        some ⟨branches ++ githubBranches, none, calls ++ [Call.ListBranches login name opt]⟩
      else
        listBranchesLoop client login name fuel { opt with Page := resp.NextPage }
          (branches ++ githubBranches) (calls ++ [Call.ListBranches login name opt])

/-- The method `GithubProvider.listBranches`. -/
def listBranches (fuel : Nat) (g : GithubProvider) (repo : github.Repository) :
    Option BranchesResult :=
  if g.allBranches = false then
    match g.client.GetBranch (github.User.GetLogin repo.Owner) repo.GetName repo.GetDefaultBranch with
    | .error err =>
      some ⟨[], some err,
        [Call.GetBranch (github.User.GetLogin repo.Owner) repo.GetName repo.GetDefaultBranch]⟩
    | .ok defaultBranch =>
      some ⟨[defaultBranch], none,
        [Call.GetBranch (github.User.GetLogin repo.Owner) repo.GetName repo.GetDefaultBranch]⟩
  else
    listBranchesLoop g.client (github.User.GetLogin repo.Owner) repo.GetName fuel
      { Page := 0, PerPage := 100 } [] []

/-- The `switch cloneProtocol` of `ListRepos` (lines 57-65); `none` is the
`default:` arm. -/
def selectURL (cloneProtocol : String) (githubRepo : github.Repository) : Option String :=
  if cloneProtocol = "" ∨ cloneProtocol = "ssh" then some githubRepo.GetSSHURL
  else if cloneProtocol = "https" then some githubRepo.GetCloneURL
  else none

/-- The struct literal appended for one branch (lines 73-80). -/
def mkRepository (githubRepo : github.Repository) (url : String) (branch : github.Branch) :
    Repository :=
  { Organization := github.User.GetLogin githubRepo.Owner
    Repository := githubRepo.GetName
    URL := url
    Branch := branch.GetName
    SHA := github.RepositoryCommit.GetSHA branch.Commit
    Labels := githubRepo.Topics }

/-- The loop `for _, githubRepo := range githubRepos` (lines 55-82): `Sum.inl`
is an early `return nil, err`, `Sum.inr` the value of `repos` after the loop. -/
def rangeRepos (bfuel : Nat) (g : GithubProvider) (cloneProtocol : String) :
    List github.Repository → List Repository → List Call →
      Option ((ListError ⊕ List Repository) × List Call)
  | [], repos, calls => some (Sum.inr repos, calls)
  | githubRepo :: rest, repos, calls =>
    match selectURL cloneProtocol githubRepo with
    | none => some (Sum.inl (ListError.unknownProtocol cloneProtocol), calls)
    | some url =>
      match listBranches bfuel g githubRepo with
      | none => none
      | some ⟨_, some err, bcalls⟩ =>
        some (Sum.inl (ListError.branches (github.User.GetLogin githubRepo.Owner)
          githubRepo.GetName err), calls ++ bcalls)
      | some ⟨branches, none, bcalls⟩ =>
        rangeRepos bfuel g cloneProtocol rest
          (repos ++ branches.map (mkRepository githubRepo url)) (calls ++ bcalls)

/-- The paging loop of `ListRepos` (lines 50-87). -/
def listReposLoop (bfuel : Nat) (g : GithubProvider) (cloneProtocol : String) :
    Nat → github.ListOptions → List Repository → List Call → Option ListResult
  | 0, _, _, _ => none
  | fuel + 1, opt, repos, calls =>
    match g.client.ListByOrg g.organization opt with
    | .error err =>
      some ⟨[], some (ListError.listing g.organization err),
        calls ++ [Call.ListByOrg g.organization opt]⟩
    | .ok (githubRepos, resp) =>
      match rangeRepos bfuel g cloneProtocol githubRepos repos
          (calls ++ [Call.ListByOrg g.organization opt]) with
      | none => none
      | some (Sum.inl err, calls1) => some ⟨[], some err, calls1⟩
      | some (Sum.inr repos1, calls1) =>
        if resp.NextPage = 0 then some ⟨repos1, none, calls1⟩
        else listReposLoop bfuel g cloneProtocol fuel { opt with Page := resp.NextPage }
          repos1 calls1

/-- The method `GithubProvider.ListRepos`; `fuel` bounds the number of
iterations of each paging loop. -/
def ListRepos (fuel : Nat) (g : GithubProvider) (cloneProtocol : String) : Option ListResult :=
  listReposLoop fuel g cloneProtocol fuel { Page := 0, PerPage := 100 } [] []

/-- The test `resp != nil && resp.StatusCode == 404` of `RepoHasPath`. -/
def isNotFound (resp : Option github.Response) : Bool :=
  match resp with
  | none => false
  | some r => r.StatusCode == 404

/-- The method `GithubProvider.RepoHasPath`: the pair is `(bool, error)`. -/
def RepoHasPath (g : GithubProvider) (repo : Repository) (path : String) :
    Bool × Option String :=
  match g.client.GetContents repo.Organization repo.Repository path repo.Branch with
  | (resp, err) =>
    if isNotFound resp = true then (false, none)
    else
      match err with
      | some e => (false, some e)
      | none => (true, none)

/-! ## Vocabulary of the statements -/

/-- The clone protocols the `switch` of `ListRepos` has an arm for. -/
def Supported (cloneProtocol : String) : Prop :=
  cloneProtocol = "" ∨ cloneProtocol = "ssh" ∨ cloneProtocol = "https"

instance (cloneProtocol : String) : Decidable (Supported cloneProtocol) := by
  unfold Supported; infer_instance

/-- The repositories of a list of pages, in page order and then in the order
within each page. -/
def listed (pages : List (List github.Repository × github.Response)) : List github.Repository :=
  pages.flatMap (fun pg => pg.1)

/-- The remote serves the organization's repositories as the finite chain
`pages`: the request with options `opt` answers the first page, each later
request carries the previous response's `NextPage`, and only the last response
has `NextPage = 0`. -/
def ServesPages (g : GithubProvider) :
    github.ListOptions → List (List github.Repository × github.Response) → Prop
  | _, [] => False
  | opt, [pg] => g.client.ListByOrg g.organization opt = .ok pg ∧ pg.2.NextPage = 0
  | opt, pg :: pg1 :: rest =>
    g.client.ListByOrg g.organization opt = .ok pg ∧ pg.2.NextPage ≠ 0 ∧
      ServesPages g { opt with Page := pg.2.NextPage } (pg1 :: rest)

/-- The remote serves the branches of repository `login/name` as the finite
chain `pages`, in the same sense as `ServesPages`. -/
def ServesBranchPages (client : github.Client) (login name : String) :
    github.ListOptions → List (List github.Branch × github.Response) → Prop
  | _, [] => False
  | opt, [pg] => client.ListBranches login name opt = .ok pg ∧ pg.2.NextPage = 0
  | opt, pg :: pg1 :: rest =>
    client.ListBranches login name opt = .ok pg ∧ pg.2.NextPage ≠ 0 ∧
      ServesBranchPages client login name { opt with Page := pg.2.NextPage } (pg1 :: rest)

/-- The URL `ListRepos` puts in the records of a repository (the empty string
stands in where the `switch` has no arm). -/
def urlOf (cloneProtocol : String) (githubRepo : github.Repository) : String :=
  (selectURL cloneProtocol githubRepo).getD ""

/-- The branches `listBranches` returns for a repository (none when it runs out
of fuel). -/
def branchesOf (bfuel : Nat) (g : GithubProvider) (githubRepo : github.Repository) :
    List github.Branch :=
  match listBranches bfuel g githubRepo with
  | some res => res.branches
  | none => []

/-- The records of one repository: one per resolved branch, in the resolver's
order. -/
def recordsOf (bfuel : Nat) (g : GithubProvider) (cloneProtocol : String)
    (githubRepo : github.Repository) : List Repository :=
  (branchesOf bfuel g githubRepo).map (mkRepository githubRepo (urlOf cloneProtocol githubRepo))

/-- Branch resolution succeeds for a repository: `listBranches` returns with a
nil error. -/
def Resolves (bfuel : Nat) (g : GithubProvider) (githubRepo : github.Repository) : Prop :=
  ∃ branches calls, listBranches bfuel g githubRepo = some ⟨branches, none, calls⟩

/-- The remote answered call `c` with error `e`. -/
def Call.FailsWith (client : github.Client) (e : String) : Call → Prop
  | .ListByOrg org opt => client.ListByOrg org opt = .error e
  | .GetBranch owner repo branch => client.GetBranch owner repo branch = .error e
  | .ListBranches owner repo opt => client.ListBranches owner repo opt = .error e

/-- Call `c` is a branch lookup or a branch page request for `login/name`. -/
def Call.IsBranchCallFor (login name : String) : Call → Prop
  | .ListByOrg _ _ => False
  | .GetBranch owner repo _ => owner = login ∧ repo = name
  | .ListBranches owner repo _ => owner = login ∧ repo = name

/-- The remote serves `pages` as the leading pages of the listing from the
request with options `opt`, each with a non-zero `NextPage`, so that the
request after them carries the options `opt1`. -/
def ServesLeading (g : GithubProvider) :
    github.ListOptions → List (List github.Repository × github.Response) →
      github.ListOptions → Prop
  | opt, [], opt1 => opt1 = opt
  | opt, pg :: rest, opt1 =>
    g.client.ListByOrg g.organization opt = .ok pg ∧ pg.2.NextPage ≠ 0 ∧
      ServesLeading g { opt with Page := pg.2.NextPage } rest opt1

/-! ## Concrete remotes -/

/-- A remote whose organization has no repository and whose content query
answers 404 together with an error, as go-github does. -/
def emptyOrgClient : github.Client :=
  { ListByOrg := fun _ _ => .ok ([], ⟨200, 0⟩)
    GetBranch := fun _ _ _ => .error "404 Not Found"
    ListBranches := fun _ _ _ => .error "404 Not Found"
    GetContents := fun _ _ _ _ => (some ⟨404, 0⟩, some "404 Not Found") }

/-- The provider of organization `acme` on `emptyOrgClient`. -/
def emptyOrgProvider : GithubProvider :=
  { client := emptyOrgClient, organization := "acme", allBranches := false }

/-- A repository `acme/<name>` with default branch `main`. -/
def acmeRepo (name : String) : github.Repository :=
  { Owner := some ⟨some "acme"⟩
    Name := some name
    SSHURL := some ("git@github.com:acme/" ++ name ++ ".git")
    CloneURL := some ("https://github.com/acme/" ++ name ++ ".git")
    DefaultBranch := some "main"
    Topics := ["team-a"] }

/-- A branch with its head commit. -/
def branchAt (name sha : String) : github.Branch :=
  { Name := some name, Commit := some ⟨some sha⟩ }

/-- A remote with the one repository `acme/app`, which has the branches `main`
and `dev`; its content query is unavailable (503 with an error). -/
def oneRepoClient : github.Client :=
  { ListByOrg := fun _ _ => .ok ([acmeRepo "app"], ⟨200, 0⟩)
    GetBranch := fun _ _ branch => .ok (branchAt branch "1111")
    ListBranches := fun _ _ _ => .ok ([branchAt "main" "1111", branchAt "dev" "2222"], ⟨200, 0⟩)
    GetContents := fun _ _ _ _ => (some ⟨503, 0⟩, some "503 Service Unavailable") }

/-- The provider of organization `acme` on `oneRepoClient`. -/
def oneRepoProvider (allBranches : Bool) : GithubProvider :=
  { client := oneRepoClient, organization := "acme", allBranches := allBranches }

/-- The repositories `acme/r<lo>`, ..., `acme/r<lo+n-1>`. -/
def acmeRepos (lo n : Nat) : List github.Repository :=
  (List.range n).map (fun i => acmeRepo ("r" ++ toString (lo + i)))

/-- The pages of an organization with 250 repositories: 100, 100 and 50, the
cursors being 2, 3 and 0. -/
def threePages : List (List github.Repository × github.Response) :=
  [(acmeRepos 0 100, ⟨200, 2⟩), (acmeRepos 100 100, ⟨200, 3⟩), (acmeRepos 200 50, ⟨200, 0⟩)]

/-- A remote serving `threePages`; every branch lookup succeeds. -/
def threePageClient : github.Client :=
  { ListByOrg := fun _ opt =>
      if opt.Page = 0 then .ok (acmeRepos 0 100, ⟨200, 2⟩)
      else if opt.Page = 2 then .ok (acmeRepos 100 100, ⟨200, 3⟩)
      else if opt.Page = 3 then .ok (acmeRepos 200 50, ⟨200, 0⟩)
      else .error "422 Unprocessable Entity"
    GetBranch := fun _ _ branch => .ok (branchAt branch "1111")
    ListBranches := fun _ _ _ => .ok ([branchAt "main" "1111"], ⟨200, 0⟩)
    GetContents := fun _ _ _ _ => (some ⟨200, 0⟩, none) }

/-- The provider of organization `acme` on `threePageClient`, in default-branch
mode. -/
def threePageProvider : GithubProvider :=
  { client := threePageClient, organization := "acme", allBranches := false }

/-- A remote with the one repository `acme/app`, default branch `main`, that
answers the lookup of a branch with the branch `trunk`. -/
def renamedBranchClient : github.Client :=
  { ListByOrg := fun _ _ => .ok ([acmeRepo "app"], ⟨200, 0⟩)
    GetBranch := fun _ _ _ => .ok (branchAt "trunk" "1111")
    ListBranches := fun _ _ _ => .ok ([branchAt "trunk" "1111"], ⟨200, 0⟩)
    GetContents := fun _ _ _ _ => (some ⟨200, 0⟩, none) }

/-- The provider of organization `acme` on `renamedBranchClient`, in
default-branch mode. -/
def renamedBranchProvider : GithubProvider :=
  { client := renamedBranchClient, organization := "acme", allBranches := false }

/-- A remote whose first page has no repository but a `NextPage` cursor 2, and
whose second page holds `acme/app`. -/
def emptyFirstPageClient : github.Client :=
  { ListByOrg := fun _ opt =>
      if opt.Page = 0 then .ok ([], ⟨200, 2⟩) else .ok ([acmeRepo "app"], ⟨200, 0⟩)
    GetBranch := fun _ _ branch => .ok (branchAt branch "1111")
    ListBranches := fun _ _ _ => .ok ([branchAt "main" "1111"], ⟨200, 0⟩)
    GetContents := fun _ _ _ _ => (some ⟨200, 0⟩, none) }

/-- The provider of organization `acme` on `emptyFirstPageClient`. -/
def emptyFirstPageProvider : GithubProvider :=
  { client := emptyFirstPageClient, organization := "acme", allBranches := false }

/-- A remote with `acme/app` on the first page and `acme/lib`, `acme/web` on
the second; branch lookups fail for `lib` and succeed for the others. -/
def failingClient : github.Client :=
  { ListByOrg := fun _ opt =>
      if opt.Page = 0 then .ok ([acmeRepo "app"], ⟨200, 2⟩)
      else .ok ([acmeRepo "lib", acmeRepo "web"], ⟨200, 0⟩)
    GetBranch := fun _ repo branch =>
      if repo = "lib" then .error "502 Bad Gateway" else .ok (branchAt branch "1111")
    ListBranches := fun _ repo _ =>
      if repo = "lib" then .error "502 Bad Gateway"
      else .ok ([branchAt "main" "1111"], ⟨200, 0⟩)
    GetContents := fun _ _ _ _ => (some ⟨200, 0⟩, none) }

/-- The provider of organization `acme` on `failingClient`. -/
def failingProvider : GithubProvider :=
  { client := failingClient, organization := "acme", allBranches := false }

/-- A remote whose organization has no repository and serves that as two empty
pages: the first reports the `NextPage` cursor 2, the second the cursor 0. -/
def twoEmptyPagesClient : github.Client :=
  { ListByOrg := fun _ opt =>
      if opt.Page = 0 then .ok ([], ⟨200, 2⟩) else .ok ([], ⟨200, 0⟩)
    GetBranch := fun _ _ _ => .error "404 Not Found"
    ListBranches := fun _ _ _ => .error "404 Not Found"
    GetContents := fun _ _ _ _ => (some ⟨404, 0⟩, some "404 Not Found") }

/-- The provider of organization `acme` on `twoEmptyPagesClient`. -/
def twoEmptyPagesProvider : GithubProvider :=
  { client := twoEmptyPagesClient, organization := "acme", allBranches := false }

/-! ## Lemmas on the loops -/

theorem selectURL_supported {cloneProtocol : String} (h : Supported cloneProtocol)
    (githubRepo : github.Repository) :
    selectURL cloneProtocol githubRepo =
      some (if cloneProtocol = "https" then githubRepo.GetCloneURL else githubRepo.GetSSHURL) := by
  rcases h with h | h | h <;> subst h <;> simp [selectURL]

theorem selectURL_unsupported {cloneProtocol : String} (h : ¬ Supported cloneProtocol)
    (githubRepo : github.Repository) : selectURL cloneProtocol githubRepo = none := by
  unfold Supported at h
  unfold selectURL
  push_neg at h
  simp [h.1, h.2.1, h.2.2]

theorem selectURL_isSome_iff (cloneProtocol : String) (githubRepo : github.Repository) :
    (∃ url, selectURL cloneProtocol githubRepo = some url) ↔ Supported cloneProtocol := by
  constructor
  · rintro ⟨url, hu⟩
    by_contra hn
    rw [selectURL_unsupported hn] at hu
    cases hu
  · intro h
    exact ⟨_, selectURL_supported h githubRepo⟩

theorem urlOf_supported {cloneProtocol : String} (h : Supported cloneProtocol)
    (githubRepo : github.Repository) :
    urlOf cloneProtocol githubRepo =
      (if cloneProtocol = "https" then githubRepo.GetCloneURL else githubRepo.GetSSHURL) := by
  simp [urlOf, selectURL_supported h]

theorem rangeRepos_nil (bfuel : Nat) (g : GithubProvider) (cloneProtocol : String)
    (repos : List Repository) (calls : List Call) :
    rangeRepos bfuel g cloneProtocol [] repos calls = some (Sum.inr repos, calls) := rfl

theorem rangeRepos_cons_ok (bfuel : Nat) (g : GithubProvider) (cloneProtocol : String)
    (githubRepo : github.Repository) (rest : List github.Repository)
    (repos : List Repository) (calls : List Call) {url : String}
    {branches : List github.Branch} {bcalls : List Call}
    (hu : selectURL cloneProtocol githubRepo = some url)
    (hb : listBranches bfuel g githubRepo = some ⟨branches, none, bcalls⟩) :
    rangeRepos bfuel g cloneProtocol (githubRepo :: rest) repos calls =
      rangeRepos bfuel g cloneProtocol rest
        (repos ++ branches.map (mkRepository githubRepo url)) (calls ++ bcalls) := by
  simp only [rangeRepos, hu, hb]

theorem rangeRepos_cons_fail (bfuel : Nat) (g : GithubProvider) (cloneProtocol : String)
    (githubRepo : github.Repository) (rest : List github.Repository)
    (repos : List Repository) (calls : List Call) {url e : String}
    {branches : List github.Branch} {bcalls : List Call}
    (hu : selectURL cloneProtocol githubRepo = some url)
    (hb : listBranches bfuel g githubRepo = some ⟨branches, some e, bcalls⟩) :
    rangeRepos bfuel g cloneProtocol (githubRepo :: rest) repos calls =
      some (Sum.inl (ListError.branches (github.User.GetLogin githubRepo.Owner)
        githubRepo.GetName e), calls ++ bcalls) := by
  simp only [rangeRepos, hu, hb]

theorem rangeRepos_cons_unsupported (bfuel : Nat) (g : GithubProvider) (cloneProtocol : String)
    (githubRepo : github.Repository) (rest : List github.Repository)
    (repos : List Repository) (calls : List Call)
    (hu : selectURL cloneProtocol githubRepo = none) :
    rangeRepos bfuel g cloneProtocol (githubRepo :: rest) repos calls =
      some (Sum.inl (ListError.unknownProtocol cloneProtocol), calls) := by
  simp only [rangeRepos, hu]

theorem recordsOf_eq {bfuel : Nat} {g : GithubProvider} {cloneProtocol : String}
    {githubRepo : github.Repository} {url : String} {branches : List github.Branch}
    {err : Option String} {bcalls : List Call}
    (hu : selectURL cloneProtocol githubRepo = some url)
    (hb : listBranches bfuel g githubRepo = some ⟨branches, err, bcalls⟩) :
    recordsOf bfuel g cloneProtocol githubRepo = branches.map (mkRepository githubRepo url) := by
  simp [recordsOf, branchesOf, urlOf, hu, hb]

/-- When every repository of the page resolves, the inner loop appends the
records of each, in order. -/
theorem rangeRepos_ok (bfuel : Nat) (g : GithubProvider) (cloneProtocol : String)
    (hp : Supported cloneProtocol) :
    ∀ (rs : List github.Repository) (repos : List Repository) (calls : List Call),
      (∀ r ∈ rs, Resolves bfuel g r) →
      ∃ calls1, rangeRepos bfuel g cloneProtocol rs repos calls =
        some (Sum.inr (repos ++ rs.flatMap (recordsOf bfuel g cloneProtocol)), calls1) := by
  intro rs
  induction rs with
  | nil => intro repos calls _; exact ⟨calls, by simp [rangeRepos_nil]⟩
  | cons r rest ih =>
    intro repos calls h
    obtain ⟨branches, bcalls, hb⟩ := h r (List.mem_cons_self _ _)
    have hu := selectURL_supported hp r
    obtain ⟨calls1, h1⟩ := ih (repos ++ branches.map (mkRepository r _)) (calls ++ bcalls)
      (fun r1 hr1 => h r1 (List.mem_cons_of_mem _ hr1))
    refine ⟨calls1, ?_⟩
    rw [rangeRepos_cons_ok bfuel g cloneProtocol r rest repos calls hu hb, h1]
    simp [recordsOf_eq hu hb, List.append_assoc]

/-- When the inner loop runs to its end, every repository of the page resolved
(and, if there was one, the protocol is supported) and the records of each were
appended in order. -/
theorem rangeRepos_inr (bfuel : Nat) (g : GithubProvider) (cloneProtocol : String) :
    ∀ (rs : List github.Repository) (repos out : List Repository) (calls calls1 : List Call),
      rangeRepos bfuel g cloneProtocol rs repos calls = some (Sum.inr out, calls1) →
      (∀ r ∈ rs, Resolves bfuel g r ∧ Supported cloneProtocol) ∧
        out = repos ++ rs.flatMap (recordsOf bfuel g cloneProtocol) := by
  intro rs
  induction rs with
  | nil =>
    intro repos out calls calls1 h
    simp [rangeRepos_nil] at h
    simp [h.1]
  | cons r rest ih =>
    intro repos out calls calls1 h
    cases hu : selectURL cloneProtocol r with
    | none =>
      rw [rangeRepos_cons_unsupported bfuel g cloneProtocol r rest repos calls hu] at h
      simp at h
    | some url =>
      have hp : Supported cloneProtocol := (selectURL_isSome_iff _ r).1 ⟨url, hu⟩
      cases hb : listBranches bfuel g r with
      | none => simp [rangeRepos, hu, hb] at h
      | some res =>
        obtain ⟨branches, err, bcalls⟩ := res
        cases err with
        | some e =>
          rw [rangeRepos_cons_fail bfuel g cloneProtocol r rest repos calls hu hb] at h
          simp at h
        | none =>
          rw [rangeRepos_cons_ok bfuel g cloneProtocol r rest repos calls hu hb] at h
          obtain ⟨h1, h2⟩ := ih _ _ _ _ h
          refine ⟨?_, ?_⟩
          · intro r1 hr1
            rcases List.mem_cons.1 hr1 with rfl | hr1
            · exact ⟨⟨branches, bcalls, hb⟩, hp⟩
            · exact h1 r1 hr1
          · rw [h2]
            simp [recordsOf_eq hu hb, List.append_assoc]

theorem listReposLoop_listErr (bfuel : Nat) (g : GithubProvider) (cloneProtocol : String)
    (fuel : Nat) (opt : github.ListOptions) (repos : List Repository) (calls : List Call)
    {e : String} (hl : g.client.ListByOrg g.organization opt = .error e) :
    listReposLoop bfuel g cloneProtocol (fuel + 1) opt repos calls =
      some ⟨[], some (ListError.listing g.organization e),
        calls ++ [Call.ListByOrg g.organization opt]⟩ := by
  simp only [listReposLoop, hl]

theorem listReposLoop_abort (bfuel : Nat) (g : GithubProvider) (cloneProtocol : String)
    (fuel : Nat) (opt : github.ListOptions) (repos : List Repository) (calls : List Call)
    {pg : List github.Repository × github.Response} {e : ListError} {calls1 : List Call}
    (hl : g.client.ListByOrg g.organization opt = .ok pg)
    (hr : rangeRepos bfuel g cloneProtocol pg.1 repos
      (calls ++ [Call.ListByOrg g.organization opt]) = some (Sum.inl e, calls1)) :
    listReposLoop bfuel g cloneProtocol (fuel + 1) opt repos calls =
      some ⟨[], some e, calls1⟩ := by
  obtain ⟨rs, resp⟩ := pg
  simp only [listReposLoop, hl]
  simp only at hr
  simp only [hr]

theorem listReposLoop_stuck (bfuel : Nat) (g : GithubProvider) (cloneProtocol : String)
    (fuel : Nat) (opt : github.ListOptions) (repos : List Repository) (calls : List Call)
    {pg : List github.Repository × github.Response}
    (hl : g.client.ListByOrg g.organization opt = .ok pg)
    (hr : rangeRepos bfuel g cloneProtocol pg.1 repos
      (calls ++ [Call.ListByOrg g.organization opt]) = none) :
    listReposLoop bfuel g cloneProtocol (fuel + 1) opt repos calls = none := by
  obtain ⟨rs, resp⟩ := pg
  simp only [listReposLoop, hl]
  simp only at hr
  simp only [hr]

theorem listReposLoop_last (bfuel : Nat) (g : GithubProvider) (cloneProtocol : String)
    (fuel : Nat) (opt : github.ListOptions) (repos : List Repository) (calls : List Call)
    {pg : List github.Repository × github.Response} {repos1 : List Repository}
    {calls1 : List Call}
    (hl : g.client.ListByOrg g.organization opt = .ok pg)
    (hr : rangeRepos bfuel g cloneProtocol pg.1 repos
      (calls ++ [Call.ListByOrg g.organization opt]) = some (Sum.inr repos1, calls1))
    (hn : pg.2.NextPage = 0) :
    listReposLoop bfuel g cloneProtocol (fuel + 1) opt repos calls =
      some ⟨repos1, none, calls1⟩ := by
  obtain ⟨rs, resp⟩ := pg
  simp only [listReposLoop, hl]
  simp only at hr hn
  simp only [hr, hn, if_true]

theorem listReposLoop_next (bfuel : Nat) (g : GithubProvider) (cloneProtocol : String)
    (fuel : Nat) (opt : github.ListOptions) (repos : List Repository) (calls : List Call)
    {pg : List github.Repository × github.Response} {repos1 : List Repository}
    {calls1 : List Call}
    (hl : g.client.ListByOrg g.organization opt = .ok pg)
    (hr : rangeRepos bfuel g cloneProtocol pg.1 repos
      (calls ++ [Call.ListByOrg g.organization opt]) = some (Sum.inr repos1, calls1))
    (hn : pg.2.NextPage ≠ 0) :
    listReposLoop bfuel g cloneProtocol (fuel + 1) opt repos calls =
      listReposLoop bfuel g cloneProtocol fuel { opt with Page := pg.2.NextPage }
        repos1 calls1 := by
  obtain ⟨rs, resp⟩ := pg
  simp only [listReposLoop, hl]
  simp only at hr hn
  simp only [hr, hn, if_false]

theorem listed_cons (pg : List github.Repository × github.Response)
    (rest : List (List github.Repository × github.Response)) :
    listed (pg :: rest) = pg.1 ++ listed rest := by
  simp [listed]

/-- On a finite chain of pages whose repositories all resolve, the outer loop
returns the records of every listed repository, in listing order. -/
theorem listReposLoop_chain (bfuel : Nat) (g : GithubProvider) (cloneProtocol : String)
    (hp : Supported cloneProtocol) :
    ∀ (pages : List (List github.Repository × github.Response)) (fuel : Nat)
      (opt : github.ListOptions) (repos : List Repository) (calls : List Call),
      ServesPages g opt pages → pages.length ≤ fuel →
      (∀ r ∈ listed pages, Resolves bfuel g r) →
      ∃ calls1, listReposLoop bfuel g cloneProtocol fuel opt repos calls =
        some ⟨repos ++ (listed pages).flatMap (recordsOf bfuel g cloneProtocol), none, calls1⟩ := by
  intro pages
  induction pages with
  | nil => intro fuel opt repos calls hs; exact absurd hs (by simp [ServesPages])
  | cons pg rest ih =>
    intro fuel opt repos calls hs hf hr
    cases fuel with
    | zero => simp at hf
    | succ fuel =>
      have hpg : ∀ r ∈ pg.1, Resolves bfuel g r := fun r h =>
        hr r (by rw [listed_cons]; exact List.mem_append_left _ h)
      obtain ⟨calls1, h1⟩ := rangeRepos_ok bfuel g cloneProtocol hp pg.1 repos
        (calls ++ [Call.ListByOrg g.organization opt]) hpg
      cases rest with
      | nil =>
        obtain ⟨hl, hn⟩ := hs
        refine ⟨calls1, ?_⟩
        rw [listReposLoop_last bfuel g cloneProtocol fuel opt repos calls hl h1 hn]
        simp [listed]
      | cons pg1 rest =>
        obtain ⟨hl, hn, hs1⟩ := hs
        have hrest : ∀ r ∈ listed (pg1 :: rest), Resolves bfuel g r := fun r h =>
          hr r (by rw [listed_cons]; exact List.mem_append_right _ h)
        obtain ⟨calls2, h2⟩ := ih fuel _ (repos ++ pg.1.flatMap (recordsOf bfuel g cloneProtocol))
          calls1 hs1 (by simpa using hf) hrest
        refine ⟨calls2, ?_⟩
        rw [listReposLoop_next bfuel g cloneProtocol fuel opt repos calls hl h1 hn, h2]
        rw [listed_cons pg]
        simp [List.append_assoc]

/-- A run of the outer loop that returns an error returns no record. -/
theorem listReposLoop_err_nil (bfuel : Nat) (g : GithubProvider) (cloneProtocol : String) :
    ∀ (fuel : Nat) (opt : github.ListOptions) (repos : List Repository) (calls : List Call)
      (res : ListResult),
      listReposLoop bfuel g cloneProtocol fuel opt repos calls = some res →
      res.err ≠ none → res.repos = [] := by
  intro fuel
  induction fuel with
  | zero => intro opt repos calls res h; simp [listReposLoop] at h
  | succ fuel ih =>
    intro opt repos calls res h herr
    cases hl : g.client.ListByOrg g.organization opt with
    | error e =>
      rw [listReposLoop_listErr bfuel g cloneProtocol fuel opt repos calls hl] at h
      cases h; rfl
    | ok pg =>
      cases hr : rangeRepos bfuel g cloneProtocol pg.1 repos
          (calls ++ [Call.ListByOrg g.organization opt]) with
      | none =>
        rw [listReposLoop_stuck bfuel g cloneProtocol fuel opt repos calls hl hr] at h
        cases h
      | some out =>
        obtain ⟨out, calls1⟩ := out
        cases out with
        | inl e =>
          rw [listReposLoop_abort bfuel g cloneProtocol fuel opt repos calls hl hr] at h
          cases h; rfl
        | inr repos1 =>
          by_cases hn : pg.2.NextPage = 0
          · rw [listReposLoop_last bfuel g cloneProtocol fuel opt repos calls hl hr hn] at h
            cases h
            exact absurd rfl herr
          · rw [listReposLoop_next bfuel g cloneProtocol fuel opt repos calls hl hr hn] at h
            exact ih _ _ _ res h herr

/-- A run of the outer loop that returns no error went through a finite chain
of pages, resolved every listed repository, and returns the records of all of
them in listing order. -/
theorem listReposLoop_success (bfuel : Nat) (g : GithubProvider) (cloneProtocol : String) :
    ∀ (fuel : Nat) (opt : github.ListOptions) (repos : List Repository) (calls : List Call)
      (res : ListResult),
      listReposLoop bfuel g cloneProtocol fuel opt repos calls = some res →
      res.err = none →
      ∃ pages, ServesPages g opt pages ∧ pages.length ≤ fuel ∧
        (∀ r ∈ listed pages, Resolves bfuel g r ∧ Supported cloneProtocol) ∧
        res.repos = repos ++ (listed pages).flatMap (recordsOf bfuel g cloneProtocol) := by
  intro fuel
  induction fuel with
  | zero => intro opt repos calls res h; simp [listReposLoop] at h
  | succ fuel ih =>
    intro opt repos calls res h herr
    cases hl : g.client.ListByOrg g.organization opt with
    | error e =>
      rw [listReposLoop_listErr bfuel g cloneProtocol fuel opt repos calls hl] at h
      cases h; simp at herr
    | ok pg =>
      cases hr : rangeRepos bfuel g cloneProtocol pg.1 repos
          (calls ++ [Call.ListByOrg g.organization opt]) with
      | none =>
        rw [listReposLoop_stuck bfuel g cloneProtocol fuel opt repos calls hl hr] at h
        cases h
      | some out =>
        obtain ⟨out, calls1⟩ := out
        cases out with
        | inl e =>
          rw [listReposLoop_abort bfuel g cloneProtocol fuel opt repos calls hl hr] at h
          cases h; simp at herr
        | inr repos1 =>
          obtain ⟨hres, hout⟩ := rangeRepos_inr bfuel g cloneProtocol _ _ _ _ _ hr
          by_cases hn : pg.2.NextPage = 0
          · rw [listReposLoop_last bfuel g cloneProtocol fuel opt repos calls hl hr hn] at h
            cases h
            refine ⟨[pg], ⟨hl, hn⟩, by simp, ?_, ?_⟩
            · intro r hr1
              exact hres r (by simpa [listed] using hr1)
            · simp [listed, hout]
          · rw [listReposLoop_next bfuel g cloneProtocol fuel opt repos calls hl hr hn] at h
            obtain ⟨pages, hs, hlen, hall, heq⟩ := ih _ _ _ res h herr
            cases pages with
            | nil => exact absurd hs (by simp [ServesPages])
            | cons pg1 rest =>
              refine ⟨pg :: pg1 :: rest, ⟨hl, hn, hs⟩, by simpa using hlen, ?_, ?_⟩
              · intro r hr1
                rw [listed_cons] at hr1
                rcases List.mem_append.1 hr1 with h1 | h1
                · exact hres r h1
                · exact hall r h1
              · rw [heq, hout, listed_cons pg]
                simp [List.append_assoc]

/-- The error of a run of the inner loop is the unknown-protocol error of an
unsupported protocol or a branch error. -/
theorem rangeRepos_inl (bfuel : Nat) (g : GithubProvider) (cloneProtocol : String) :
    ∀ (rs : List github.Repository) (repos : List Repository) (calls calls1 : List Call)
      (e : ListError),
      rangeRepos bfuel g cloneProtocol rs repos calls = some (Sum.inl e, calls1) →
      (e = ListError.unknownProtocol cloneProtocol ∧ ¬ Supported cloneProtocol) ∨
        ∃ login name x, e = ListError.branches login name x := by
  intro rs
  induction rs with
  | nil => intro repos calls calls1 e h; simp [rangeRepos_nil] at h
  | cons r rest ih =>
    intro repos calls calls1 e h
    cases hu : selectURL cloneProtocol r with
    | none =>
      rw [rangeRepos_cons_unsupported bfuel g cloneProtocol r rest repos calls hu] at h
      simp only [Option.some.injEq, Prod.mk.injEq, Sum.inl.injEq] at h
      left
      refine ⟨h.1.symm, fun hp => ?_⟩
      rw [selectURL_supported hp] at hu
      cases hu
    | some url =>
      cases hb : listBranches bfuel g r with
      | none => simp [rangeRepos, hu, hb] at h
      | some res =>
        obtain ⟨branches, err, bcalls⟩ := res
        cases err with
        | some x =>
          rw [rangeRepos_cons_fail bfuel g cloneProtocol r rest repos calls hu hb] at h
          simp only [Option.some.injEq, Prod.mk.injEq, Sum.inl.injEq] at h
          exact Or.inr ⟨_, _, _, h.1.symm⟩
        | none =>
          rw [rangeRepos_cons_ok bfuel g cloneProtocol r rest repos calls hu hb] at h
          exact ih _ _ _ _ h

/-- The error of a run of the outer loop is a listing error, the
unknown-protocol error of an unsupported protocol, or a branch error. -/
theorem listReposLoop_err_kind (bfuel : Nat) (g : GithubProvider) (cloneProtocol : String) :
    ∀ (fuel : Nat) (opt : github.ListOptions) (repos : List Repository) (calls : List Call)
      (res : ListResult) (e : ListError),
      listReposLoop bfuel g cloneProtocol fuel opt repos calls = some res →
      res.err = some e →
      (∃ x, e = ListError.listing g.organization x) ∨
        (e = ListError.unknownProtocol cloneProtocol ∧ ¬ Supported cloneProtocol) ∨
        ∃ login name x, e = ListError.branches login name x := by
  intro fuel
  induction fuel with
  | zero => intro opt repos calls res e h; simp [listReposLoop] at h
  | succ fuel ih =>
    intro opt repos calls res e h herr
    cases hl : g.client.ListByOrg g.organization opt with
    | error x =>
      rw [listReposLoop_listErr bfuel g cloneProtocol fuel opt repos calls hl] at h
      cases h
      simp only [Option.some.injEq] at herr
      exact Or.inl ⟨x, herr.symm⟩
    | ok pg =>
      cases hr : rangeRepos bfuel g cloneProtocol pg.1 repos
          (calls ++ [Call.ListByOrg g.organization opt]) with
      | none =>
        rw [listReposLoop_stuck bfuel g cloneProtocol fuel opt repos calls hl hr] at h
        cases h
      | some out =>
        obtain ⟨out, calls1⟩ := out
        cases out with
        | inl e1 =>
          rw [listReposLoop_abort bfuel g cloneProtocol fuel opt repos calls hl hr] at h
          cases h
          simp only [Option.some.injEq] at herr
          subst herr
          exact Or.inr (rangeRepos_inl bfuel g cloneProtocol _ _ _ _ _ hr)
        | inr repos1 =>
          by_cases hn : pg.2.NextPage = 0
          · rw [listReposLoop_last bfuel g cloneProtocol fuel opt repos calls hl hr hn] at h
            cases h
            simp at herr
          · rw [listReposLoop_next bfuel g cloneProtocol fuel opt repos calls hl hr hn] at h
            exact ih _ _ _ res e h herr

theorem message_ne_unknownProtocol (e : ListError) (q : String)
    (h : (∃ o x, e = ListError.listing o x) ∨ ∃ login name x, e = ListError.branches login name x) :
    e.message ≠ (ListError.unknownProtocol q).message := by
  intro hm
  rcases h with ⟨o, x, rfl⟩ | ⟨login, name, x, rfl⟩
  · have h1 := congrArg String.data hm
    simp [ListError.message, String.data_append] at h1
  · have h1 := congrArg String.data hm
    simp [ListError.message, String.data_append] at h1

/-! ## More fuel does not change a result -/

theorem listBranchesLoop_mono (client : github.Client) (login name : String) :
    ∀ (fuel fuel1 : Nat) (opt : github.ListOptions) (branches : List github.Branch)
      (calls : List Call) (res : BranchesResult), fuel ≤ fuel1 →
      listBranchesLoop client login name fuel opt branches calls = some res →
      listBranchesLoop client login name fuel1 opt branches calls = some res := by
  intro fuel
  induction fuel with
  | zero => intro fuel1 opt branches calls res _ h; simp [listBranchesLoop] at h
  | succ fuel ih =>
    intro fuel1 opt branches calls res hle h
    obtain ⟨n, rfl⟩ : ∃ n, fuel1 = n + 1 := ⟨fuel1 - 1, by omega⟩
    cases hl : client.ListBranches login name opt with
    | error x =>
      simp only [listBranchesLoop, hl] at h ⊢
      exact h
    | ok pg =>
      obtain ⟨bsp, resp⟩ := pg
      by_cases hn : resp.NextPage = 0
      · simp only [listBranchesLoop, hl, hn, if_true] at h ⊢
        exact h
      · simp only [listBranchesLoop, hl, hn, if_false] at h ⊢
        exact ih n _ _ _ _ (by omega) h

theorem listBranches_mono {bfuel bfuel1 : Nat} (g : GithubProvider) (r : github.Repository)
    {res : BranchesResult} (hle : bfuel ≤ bfuel1) (h : listBranches bfuel g r = some res) :
    listBranches bfuel1 g r = some res := by
  unfold listBranches at h ⊢
  by_cases hg : g.allBranches = false
  · rw [if_pos hg] at h ⊢
    exact h
  · rw [if_neg hg] at h ⊢
    exact listBranchesLoop_mono _ _ _ _ _ _ _ _ _ hle h

theorem rangeRepos_mono {bfuel bfuel1 : Nat} (g : GithubProvider) (cloneProtocol : String)
    (hle : bfuel ≤ bfuel1) :
    ∀ (rs : List github.Repository) (repos : List Repository) (calls : List Call)
      (out : (ListError ⊕ List Repository) × List Call),
      rangeRepos bfuel g cloneProtocol rs repos calls = some out →
      rangeRepos bfuel1 g cloneProtocol rs repos calls = some out := by
  intro rs
  induction rs with
  | nil => intro repos calls out h; exact h
  | cons r rest ih =>
    intro repos calls out h
    cases hu : selectURL cloneProtocol r with
    | none =>
      rw [rangeRepos_cons_unsupported bfuel g cloneProtocol r rest repos calls hu] at h
      rw [rangeRepos_cons_unsupported bfuel1 g cloneProtocol r rest repos calls hu]
      exact h
    | some url =>
      cases hb : listBranches bfuel g r with
      | none => simp [rangeRepos, hu, hb] at h
      | some res =>
        obtain ⟨branches, err, bcalls⟩ := res
        have hb1 := listBranches_mono g r hle hb
        cases err with
        | some e =>
          rw [rangeRepos_cons_fail bfuel g cloneProtocol r rest repos calls hu hb] at h
          rw [rangeRepos_cons_fail bfuel1 g cloneProtocol r rest repos calls hu hb1]
          exact h
        | none =>
          rw [rangeRepos_cons_ok bfuel g cloneProtocol r rest repos calls hu hb] at h
          rw [rangeRepos_cons_ok bfuel1 g cloneProtocol r rest repos calls hu hb1]
          exact ih _ _ _ h

theorem listReposLoop_mono {bfuel bfuel1 : Nat} (g : GithubProvider) (cloneProtocol : String)
    (hle : bfuel ≤ bfuel1) :
    ∀ (fuel fuel1 : Nat) (opt : github.ListOptions) (repos : List Repository)
      (calls : List Call) (res : ListResult), fuel ≤ fuel1 →
      listReposLoop bfuel g cloneProtocol fuel opt repos calls = some res →
      listReposLoop bfuel1 g cloneProtocol fuel1 opt repos calls = some res := by
  intro fuel
  induction fuel with
  | zero => intro fuel1 opt repos calls res _ h; simp [listReposLoop] at h
  | succ fuel ih =>
    intro fuel1 opt repos calls res hf h
    obtain ⟨n, rfl⟩ : ∃ n, fuel1 = n + 1 := ⟨fuel1 - 1, by omega⟩
    cases hl : g.client.ListByOrg g.organization opt with
    | error e =>
      rw [listReposLoop_listErr bfuel g cloneProtocol fuel opt repos calls hl] at h
      rw [listReposLoop_listErr bfuel1 g cloneProtocol n opt repos calls hl]
      exact h
    | ok pg =>
      cases hr : rangeRepos bfuel g cloneProtocol pg.1 repos
          (calls ++ [Call.ListByOrg g.organization opt]) with
      | none =>
        rw [listReposLoop_stuck bfuel g cloneProtocol fuel opt repos calls hl hr] at h
        cases h
      | some out =>
        have hr1 := rangeRepos_mono g cloneProtocol hle _ _ _ _ hr
        obtain ⟨out, calls1⟩ := out
        cases out with
        | inl e =>
          rw [listReposLoop_abort bfuel g cloneProtocol fuel opt repos calls hl hr] at h
          rw [listReposLoop_abort bfuel1 g cloneProtocol n opt repos calls hl hr1]
          exact h
        | inr repos1 =>
          by_cases hn : pg.2.NextPage = 0
          · rw [listReposLoop_last bfuel g cloneProtocol fuel opt repos calls hl hr hn] at h
            rw [listReposLoop_last bfuel1 g cloneProtocol n opt repos calls hl hr1 hn]
            exact h
          · rw [listReposLoop_next bfuel g cloneProtocol fuel opt repos calls hl hr hn] at h
            rw [listReposLoop_next bfuel1 g cloneProtocol n opt repos calls hl hr1 hn]
            exact ih n _ _ _ _ (by omega) h

/-- Once `ListRepos` returns with some fuel, it returns the same with any
larger fuel: the fuel only cuts runs that have not ended. -/
theorem ListRepos_mono {fuel fuel1 : Nat} (g : GithubProvider) (cloneProtocol : String)
    {res : ListResult} (hle : fuel ≤ fuel1) (h : ListRepos fuel g cloneProtocol = some res) :
    ListRepos fuel1 g cloneProtocol = some res :=
  listReposLoop_mono g cloneProtocol hle fuel fuel1 _ _ _ res hle h

/-! ## Pages without repositories -/

/-- On a finite chain of pages that hold no repository the outer loop makes one
listing call per page and returns what it had, without error, whatever the
clone protocol. -/
theorem listReposLoop_empty_chain (bfuel : Nat) (g : GithubProvider) (cloneProtocol : String) :
    ∀ (pages : List (List github.Repository × github.Response)) (fuel : Nat)
      (opt : github.ListOptions) (repos : List Repository) (calls : List Call),
      ServesPages g opt pages → (∀ pg ∈ pages, pg.1 = []) → pages.length ≤ fuel →
      ∃ calls1, listReposLoop bfuel g cloneProtocol fuel opt repos calls =
          some ⟨repos, none, calls ++ calls1⟩ ∧
        calls1.length = pages.length ∧
        ∀ c ∈ calls1, ∃ o, c = Call.ListByOrg g.organization o := by
  intro pages
  induction pages with
  | nil => intro fuel opt repos calls hs; exact absurd hs (by simp [ServesPages])
  | cons pg rest ih =>
    intro fuel opt repos calls hs he hf
    obtain ⟨n, rfl⟩ : ∃ n, fuel = n + 1 := ⟨fuel - 1, by simp at hf; omega⟩
    have hpg : pg.1 = [] := he pg (List.mem_cons_self _ _)
    have hr : rangeRepos bfuel g cloneProtocol pg.1 repos
        (calls ++ [Call.ListByOrg g.organization opt]) =
        some (Sum.inr repos, calls ++ [Call.ListByOrg g.organization opt]) := by
      rw [hpg]; rfl
    cases rest with
    | nil =>
      obtain ⟨hl, hn⟩ := hs
      refine ⟨[Call.ListByOrg g.organization opt], ?_, rfl, ?_⟩
      · exact listReposLoop_last bfuel g cloneProtocol n opt repos calls hl hr hn
      · intro c hc
        exact ⟨opt, by simpa using hc⟩
    | cons pg1 rest =>
      obtain ⟨hl, hn, hs1⟩ := hs
      obtain ⟨calls2, h2, hlen, hall⟩ := ih n _ repos
        (calls ++ [Call.ListByOrg g.organization opt]) hs1
        (fun q hq => he q (List.mem_cons_of_mem _ hq)) (by simpa using hf)
      refine ⟨Call.ListByOrg g.organization opt :: calls2, ?_, by simp [hlen], ?_⟩
      · rw [listReposLoop_next bfuel g cloneProtocol n opt repos calls hl hr hn, h2]
        simp
      · intro c hc
        rcases List.mem_cons.1 hc with rfl | hc
        · exact ⟨opt, rfl⟩
        · exact hall c hc

/-- With an unsupported protocol the outer loop goes through leading pages
without repositories and fails at the first page that holds one, having made
listing calls only. -/
theorem listReposLoop_unsupported_at (bfuel : Nat) (g : GithubProvider) (cloneProtocol : String)
    (hp : ¬ Supported cloneProtocol) (opt1 : github.ListOptions)
    (pg : List github.Repository × github.Response)
    (hl : g.client.ListByOrg g.organization opt1 = .ok pg) (hne : pg.1 ≠ []) :
    ∀ (pages : List (List github.Repository × github.Response)) (fuel : Nat)
      (opt : github.ListOptions) (repos : List Repository) (calls : List Call),
      ServesLeading g opt pages opt1 → (∀ q ∈ pages, q.1 = []) → pages.length < fuel →
      ∃ calls1, listReposLoop bfuel g cloneProtocol fuel opt repos calls =
          some ⟨[], some (ListError.unknownProtocol cloneProtocol),
            calls ++ calls1 ++ [Call.ListByOrg g.organization opt1]⟩ ∧
        calls1.length = pages.length ∧
        ∀ c ∈ calls1, ∃ o, c = Call.ListByOrg g.organization o := by
  intro pages
  induction pages with
  | nil =>
    intro fuel opt repos calls hs _ hf
    obtain ⟨n, rfl⟩ : ∃ n, fuel = n + 1 := ⟨fuel - 1, by simp at hf; omega⟩
    have hopt : opt1 = opt := hs
    subst hopt
    refine ⟨[], ?_, rfl, by simp⟩
    cases hrs : pg.1 with
    | nil => exact absurd hrs hne
    | cons r rest =>
      have hr : rangeRepos bfuel g cloneProtocol pg.1 repos
          (calls ++ [Call.ListByOrg g.organization opt1]) =
          some (Sum.inl (ListError.unknownProtocol cloneProtocol),
            calls ++ [Call.ListByOrg g.organization opt1]) := by
        rw [hrs]
        exact rangeRepos_cons_unsupported bfuel g cloneProtocol r rest repos _
          (selectURL_unsupported hp r)
      rw [listReposLoop_abort bfuel g cloneProtocol n opt1 repos calls hl hr]
      simp
  | cons q rest ih =>
    intro fuel opt repos calls hs he hf
    obtain ⟨n, rfl⟩ : ∃ n, fuel = n + 1 := ⟨fuel - 1, by simp at hf; omega⟩
    obtain ⟨hq, hn, hs1⟩ := hs
    have hqe : q.1 = [] := he q (List.mem_cons_self _ _)
    have hr : rangeRepos bfuel g cloneProtocol q.1 repos
        (calls ++ [Call.ListByOrg g.organization opt]) =
        some (Sum.inr repos, calls ++ [Call.ListByOrg g.organization opt]) := by
      rw [hqe]; rfl
    obtain ⟨calls2, h2, hlen, hall⟩ := ih n _ repos
      (calls ++ [Call.ListByOrg g.organization opt]) hs1
      (fun x hx => he x (List.mem_cons_of_mem _ hx)) (by simpa using hf)
    refine ⟨Call.ListByOrg g.organization opt :: calls2, ?_, by simp [hlen], ?_⟩
    · rw [listReposLoop_next bfuel g cloneProtocol n opt repos calls hq hr hn, h2]
      simp
    · intro c hc
      rcases List.mem_cons.1 hc with rfl | hc
      · exact ⟨opt, rfl⟩
      · exact hall c hc

/-! ## The path prober -/

/-- C1: whenever the response to the content query carries status 404,
`RepoHasPath` returns `false` and the nil error, whatever error the client
reports next to that response. -/
theorem repoHasPath_not_found (g : GithubProvider) (repo : Repository) (path : String)
    (resp : github.Response) (err : Option String)
    (hq : g.client.GetContents repo.Organization repo.Repository path repo.Branch =
      (some resp, err))
    (h404 : resp.StatusCode = 404) :
    RepoHasPath g repo path = (false, none) := by
  simp [RepoHasPath, hq, isNotFound, h404]

theorem repoHasPath_not_found_witness :
    RepoHasPath emptyOrgProvider ⟨"acme", "app", "", "main", "", []⟩ "README.md" = (false, none) :=
  repoHasPath_not_found emptyOrgProvider ⟨"acme", "app", "", "main", "", []⟩ "README.md"
    ⟨404, 0⟩ (some "404 Not Found") rfl rfl

/-- C2: when the response to the content query is not a 404 (no response at
all included), `RepoHasPath` returns exactly the error the remote call
reported, and its boolean is `true` precisely when there is no such error: an
error comes with `false`, and `false` never comes without the error. -/
theorem repoHasPath_not_404 (g : GithubProvider) (repo : Repository) (path : String)
    (resp : Option github.Response) (err : Option String)
    (hq : g.client.GetContents repo.Organization repo.Repository path repo.Branch = (resp, err))
    (hn : ∀ r, resp = some r → r.StatusCode ≠ 404) :
    (RepoHasPath g repo path).2 = err ∧
      ((RepoHasPath g repo path).1 = true ↔ err = none) ∧
      ((RepoHasPath g repo path).1 = false ↔ ∃ e, err = some e) := by
  have h0 : isNotFound resp = false := by
    cases resp with
    | none => rfl
    | some r => simpa [isNotFound] using hn r rfl
  cases err with
  | none => simp [RepoHasPath, hq, h0]
  | some e => simp [RepoHasPath, hq, h0]

theorem repoHasPath_not_404_witness :
    (RepoHasPath (oneRepoProvider false) ⟨"acme", "app", "", "main", "", []⟩ "README.md").2 =
        some "503 Service Unavailable" ∧
      (RepoHasPath (oneRepoProvider false) ⟨"acme", "app", "", "main", "", []⟩ "README.md").1 =
        false :=
  have h := repoHasPath_not_404 (oneRepoProvider false) ⟨"acme", "app", "", "main", "", []⟩
    "README.md" (some ⟨503, 0⟩) (some "503 Service Unavailable") rfl
    (by intro r hr; cases hr; decide)
  ⟨h.1, h.2.2.2 ⟨_, rfl⟩⟩

/-! ## Clone protocol selection -/

/-- C3, as stated, fails: with the unsupported protocol `git` and an
organization without repositories, `ListRepos` returns the empty sequence and
no error for every positive fuel, not the unknown-clone-protocol error. -/
theorem listRepos_unsupported_empty_org :
    ¬ Supported "git" ∧
      ∀ fuel : Nat, ListRepos (fuel + 1) emptyOrgProvider "git" =
        some ⟨[], none, [Call.ListByOrg "acme" ⟨0, 100⟩]⟩ := by
  refine ⟨by decide, fun fuel => ?_⟩
  rfl

/-- C3 (amended): with a protocol among `""`, `"ssh"`, `"https"`, no error
`ListRepos` returns is the unknown-clone-protocol error (neither as a value nor
by its message); with any other protocol `ListRepos` returns no repository, and
as soon as the listing reaches a page that holds a repository (the pages before
it, if any, fetched without error, empty and with a non-zero `NextPage`) it
fails, with that fuel or more, with the unknown-clone-protocol error naming
that protocol, having made listing calls only, the last one for that page. -/
theorem listRepos_clone_protocol (fuel : Nat) (g : GithubProvider) (cloneProtocol : String) :
    (Supported cloneProtocol → ∀ res e, ListRepos fuel g cloneProtocol = some res →
        res.err = some e →
        ∀ q, e ≠ ListError.unknownProtocol q ∧
          e.message ≠ (ListError.unknownProtocol q).message) ∧
    (¬ Supported cloneProtocol → ∀ res, ListRepos fuel g cloneProtocol = some res →
        res.repos = []) ∧
    (¬ Supported cloneProtocol →
      ∀ (pages : List (List github.Repository × github.Response)) (opt1 : github.ListOptions)
        (pg : List github.Repository × github.Response),
        ServesLeading g ⟨0, 100⟩ pages opt1 → (∀ q ∈ pages, q.1 = []) →
        g.client.ListByOrg g.organization opt1 = .ok pg → pg.1 ≠ [] → pages.length < fuel →
        ∃ res, (∀ fuel1, fuel ≤ fuel1 → ListRepos fuel1 g cloneProtocol = some res) ∧
          res.repos = [] ∧
          res.err = some (ListError.unknownProtocol cloneProtocol) ∧
          (∀ err, res.err = some err →
            err.message = "unknown clone protocol for GitHub " ++ cloneProtocol) ∧
          (∃ calls1, res.calls = calls1 ++ [Call.ListByOrg g.organization opt1]) ∧
          res.calls.length = pages.length + 1 ∧
          ∀ c ∈ res.calls, ∃ o, c = Call.ListByOrg g.organization o) := by
  refine ⟨?_, ?_, ?_⟩
  · intro hp res e h herr q
    have hk := listReposLoop_err_kind fuel g cloneProtocol fuel _ _ _ res e h herr
    have hk1 : (∃ o x, e = ListError.listing o x) ∨
        ∃ login name x, e = ListError.branches login name x := by
      rcases hk with ⟨x, hx⟩ | ⟨_, hn⟩ | hb
      · exact Or.inl ⟨_, x, hx⟩
      · exact absurd hp hn
      · exact Or.inr hb
    refine ⟨?_, message_ne_unknownProtocol e q hk1⟩
    rcases hk1 with ⟨o, x, rfl⟩ | ⟨login, name, x, rfl⟩ <;> simp
  · intro hp res h
    cases herr : res.err with
    | some e =>
      exact listReposLoop_err_nil fuel g cloneProtocol fuel _ _ _ res h (by simp [herr])
    | none =>
      obtain ⟨pages, _, _, hall, heq⟩ :=
        listReposLoop_success fuel g cloneProtocol fuel _ _ _ res h herr
      have hnil : listed pages = [] := by
        cases hl : listed pages with
        | nil => rfl
        | cons r rest => exact absurd (hall r (by simp [hl])).2 hp
      simp [heq, hnil]
  · intro hp pages opt1 pg hs he hl hne hf
    obtain ⟨calls1, h1, hlen, hall⟩ := listReposLoop_unsupported_at fuel g cloneProtocol hp
      opt1 pg hl hne pages fuel ⟨0, 100⟩ [] [] hs he hf
    refine ⟨_, fun fuel1 hle => ListRepos_mono g cloneProtocol hle h1, rfl, rfl, ?_,
      ⟨[] ++ calls1, rfl⟩, by simp [hlen], ?_⟩
    · intro err herr
      simp only [Option.some.injEq] at herr
      subst herr
      rfl
    · intro c hc
      simp only [List.nil_append, List.mem_append, List.mem_singleton] at hc
      rcases hc with hc | rfl
      · exact hall c hc
      · exact ⟨opt1, rfl⟩

/-- C3 on a remote whose first page is empty and whose second page holds a
repository: with the protocol `git` the error comes at the second page. -/
theorem listRepos_clone_protocol_witness :
    ∃ res, (∀ fuel1, 2 ≤ fuel1 → ListRepos fuel1 emptyFirstPageProvider "git" = some res) ∧
      res.repos = [] ∧
      res.err = some (ListError.unknownProtocol "git") ∧
      (∀ err, res.err = some err → err.message = "unknown clone protocol for GitHub git") ∧
      (∃ calls1, res.calls = calls1 ++ [Call.ListByOrg "acme" ⟨2, 100⟩]) ∧
      res.calls.length = 2 ∧
      ∀ c ∈ res.calls, ∃ o, c = Call.ListByOrg "acme" o :=
  (listRepos_clone_protocol 2 emptyFirstPageProvider "git").2.2 (by decide)
    [([], ⟨200, 2⟩)] ⟨2, 100⟩ ([acmeRepo "app"], ⟨200, 0⟩) ⟨rfl, by decide, rfl⟩
    (by intro q hq; simp at hq; subst hq; rfl) rfl (by simp) (by decide)

/-! ## Pagination and ordering -/

theorem listBranches_default {bfuel : Nat} {g : GithubProvider} {r : github.Repository}
    {branches : List github.Branch} {calls : List Call} (hg : g.allBranches = false)
    (h : listBranches bfuel g r = some ⟨branches, none, calls⟩) :
    ∃ b, g.client.GetBranch (github.User.GetLogin r.Owner) r.GetName r.GetDefaultBranch = .ok b ∧
      branches = [b] := by
  unfold listBranches at h
  rw [if_pos hg] at h
  cases hb : g.client.GetBranch (github.User.GetLogin r.Owner) r.GetName r.GetDefaultBranch with
  | error e => rw [hb] at h; simp at h
  | ok b =>
    rw [hb] at h
    simp only [Option.some.injEq, BranchesResult.mk.injEq] at h
    exact ⟨b, rfl, h.1.symm⟩

theorem map_flatMap_singletons {α β γ : Type} (l : List α) (f : α → List β) (k : β → γ)
    (k1 : α → γ) (h : ∀ x ∈ l, (f x).map k = [k1 x]) :
    (l.flatMap f).map k = l.map k1 := by
  induction l with
  | nil => simp
  | cons x xs ih =>
    simp only [List.flatMap_cons, List.map_append, List.map_cons]
    rw [h x (List.mem_cons_self _ _), ih (fun y hy => h y (List.mem_cons_of_mem _ hy))]
    rfl

/-- C4: when the remote serves the organization's repositories as the finite
chain `pages` (first request without cursor, page size 100, each later request
with the previous `NextPage`, last `NextPage` 0), the protocol is supported and
branch resolution succeeds with `bs r` for every listed repository `r`, then
with that fuel or more `ListRepos` returns, without error, exactly the
records of the repositories in page order, then position in the page, then the
resolver's order of branches. In default-branch mode that is one record per
listed repository, in listing order. -/
theorem listRepos_pagination (fuel : Nat) (g : GithubProvider) (cloneProtocol : String)
    (pages : List (List github.Repository × github.Response))
    (bs : github.Repository → List github.Branch)
    (hp : Supported cloneProtocol)
    (hs : ServesPages g ⟨0, 100⟩ pages) (hf : pages.length ≤ fuel)
    (hb : ∀ r ∈ listed pages, ∃ calls, listBranches fuel g r = some ⟨bs r, none, calls⟩) :
    ∃ res, (∀ fuel1, fuel ≤ fuel1 → ListRepos fuel1 g cloneProtocol = some res) ∧
      res.err = none ∧
      res.repos = (pages.flatMap (fun pg => pg.1)).flatMap (fun r =>
        (bs r).map (mkRepository r
          (if cloneProtocol = "https" then r.GetCloneURL else r.GetSSHURL))) ∧
      (g.allBranches = false →
        res.repos.length = (pages.map (fun pg => pg.1.length)).sum ∧
        res.repos.map (fun x => (x.Organization, x.Repository)) =
          (pages.flatMap (fun pg => pg.1)).map (fun r =>
            (github.User.GetLogin r.Owner, r.GetName))) := by
  have hres : ∀ r ∈ listed pages, Resolves fuel g r := fun r hr => by
    obtain ⟨calls, hc⟩ := hb r hr
    exact ⟨bs r, calls, hc⟩
  obtain ⟨calls1, h1⟩ := listReposLoop_chain fuel g cloneProtocol hp pages fuel ⟨0, 100⟩ [] []
    hs hf hres
  have hrec : (listed pages).flatMap (recordsOf fuel g cloneProtocol) =
      (listed pages).flatMap (fun r => (bs r).map (mkRepository r
        (if cloneProtocol = "https" then r.GetCloneURL else r.GetSSHURL))) := by
    apply List.flatMap_congr
    intro r hr
    obtain ⟨calls, hc⟩ := hb r hr
    exact recordsOf_eq (selectURL_supported hp r) hc
  refine ⟨_, fun fuel1 hle => ListRepos_mono g cloneProtocol hle h1, rfl, ?_, ?_⟩
  · simpa [listed] using hrec
  · intro hg
    have hkey : (([] : List Repository) ++ (listed pages).flatMap
        (recordsOf fuel g cloneProtocol)).map (fun x => (x.Organization, x.Repository)) =
        (listed pages).map (fun r => (github.User.GetLogin r.Owner, r.GetName)) := by
      rw [List.nil_append, hrec]
      apply map_flatMap_singletons
      intro r hr
      obtain ⟨calls, hc⟩ := hb r hr
      obtain ⟨b, _, hbs⟩ := listBranches_default hg hc
      simp [hbs, mkRepository]
    refine ⟨?_, by simpa [listed] using hkey⟩
    have hlen := congrArg List.length hkey
    simp only [List.length_map] at hlen
    rw [hlen]
    simp [listed, List.length_flatMap]
    rfl

/-- C4 at the example of the claim: 250 repositories over the three pages of
100, 100 and 50 give 250 records, in default-branch mode. -/
theorem listRepos_pagination_witness :
    ∃ res, ListRepos 3 threePageProvider "" = some res ∧ res.err = none ∧
      res.repos.length = 250 ∧
      res.repos.map (fun x => (x.Organization, x.Repository)) =
        (acmeRepos 0 100 ++ acmeRepos 100 100 ++ acmeRepos 200 50).map (fun r =>
          (github.User.GetLogin r.Owner, r.GetName)) := by
  obtain ⟨res, h, herr, _, hd⟩ := listRepos_pagination 3 threePageProvider "" threePages
    (fun r => [branchAt r.GetDefaultBranch "1111"]) (by decide)
    ⟨rfl, by decide, rfl, by decide, rfl, rfl⟩ (by decide)
    (fun r _ => ⟨_, rfl⟩)
  obtain ⟨hlen, hkey⟩ := hd rfl
  refine ⟨res, h 3 (Nat.le_refl 3), herr, ?_, ?_⟩
  · rw [hlen]
    simp [threePages, acmeRepos]
  · rw [hkey]
    simp [threePages]

/-! ## Branch resolution -/

theorem forall2_flatMap_singletons {α β : Type} (R : α → β → Prop) (l : List α)
    (f : α → List β) (h : ∀ x ∈ l, ∃ y, f x = [y] ∧ R x y) :
    List.Forall₂ R l (l.flatMap f) := by
  induction l with
  | nil => simp
  | cons x xs ih =>
    obtain ⟨y, hy, hR⟩ := h x (List.mem_cons_self _ _)
    rw [List.flatMap_cons, hy]
    exact List.Forall₂.cons hR (ih (fun z hz => h z (List.mem_cons_of_mem _ hz)))

/-- C5, as stated, fails: in default-branch mode the record carries the name of
the branch the remote returned, here `trunk`, while the default branch name of
the repository is `main`. -/
theorem listRepos_default_branch_renamed :
    ListRepos 1 renamedBranchProvider "" =
        some ⟨[⟨"acme", "app", "git@github.com:acme/app.git", "trunk", "1111", ["team-a"]⟩],
          none, [Call.ListByOrg "acme" ⟨0, 100⟩, Call.GetBranch "acme" "app" "main"]⟩ ∧
      (acmeRepo "app").GetDefaultBranch = "main" := by
  constructor
  · rfl
  · rfl

/-- C5 (amended): with `allBranches = false`, whenever `ListRepos` succeeds it
went through a chain of pages and emits exactly one record per listed
repository, in listing order; that record is built from the branch the remote
returned for the single lookup of the repository's default branch by name, so
its Branch is that returned branch's name. It equals the default branch name
whenever the remote answers a lookup with a branch of the name asked for. -/
theorem listRepos_default_branch (fuel : Nat) (g : GithubProvider) (cloneProtocol : String)
    (res : ListResult) (hg : g.allBranches = false)
    (h : ListRepos fuel g cloneProtocol = some res) (herr : res.err = none) :
    ∃ pages, ServesPages g ⟨0, 100⟩ pages ∧
      List.Forall₂ (fun r record => ∃ b url,
          g.client.GetBranch (github.User.GetLogin r.Owner) r.GetName r.GetDefaultBranch = .ok b ∧
          selectURL cloneProtocol r = some url ∧
          record = mkRepository r url b ∧ record.Branch = b.GetName)
        (pages.flatMap (fun pg => pg.1)) res.repos ∧
      res.repos.length = (pages.flatMap (fun pg => pg.1)).length ∧
      ((∀ owner repo branch b, g.client.GetBranch owner repo branch = .ok b →
          b.GetName = branch) →
        res.repos.map (fun record => record.Branch) =
          (pages.flatMap (fun pg => pg.1)).map (fun r => r.GetDefaultBranch)) := by
  obtain ⟨pages, hs, _, hall, heq⟩ :=
    listReposLoop_success fuel g cloneProtocol fuel _ _ _ res h herr
  have hone : ∀ r ∈ listed pages, ∃ b url,
      g.client.GetBranch (github.User.GetLogin r.Owner) r.GetName r.GetDefaultBranch = .ok b ∧
      selectURL cloneProtocol r = some url ∧
      recordsOf fuel g cloneProtocol r = [mkRepository r url b] := by
    intro r hr
    obtain ⟨⟨branches, calls, hb⟩, hp⟩ := hall r hr
    obtain ⟨b, hget, hbs⟩ := listBranches_default hg hb
    refine ⟨b, _, hget, selectURL_supported hp r, ?_⟩
    rw [recordsOf_eq (selectURL_supported hp r) hb, hbs]
    rfl
  have hf2 : List.Forall₂ (fun r record => ∃ b url,
      g.client.GetBranch (github.User.GetLogin r.Owner) r.GetName r.GetDefaultBranch = .ok b ∧
      selectURL cloneProtocol r = some url ∧
      record = mkRepository r url b ∧ record.Branch = b.GetName)
      (listed pages) res.repos := by
    rw [heq, List.nil_append]
    apply forall2_flatMap_singletons
    intro r hr
    obtain ⟨b, url, hget, hu, hrec⟩ := hone r hr
    exact ⟨_, hrec, b, url, hget, hu, rfl, rfl⟩
  refine ⟨pages, hs, hf2, hf2.length_eq.symm, ?_⟩
  intro hname
  rw [heq, List.nil_append]
  apply map_flatMap_singletons
  intro r hr
  obtain ⟨b, url, hget, _, hrec⟩ := hone r hr
  rw [hrec]
  simp [mkRepository, hname _ _ _ b hget]

theorem listRepos_default_branch_witness :
    ∃ pages, ServesPages (oneRepoProvider false) ⟨0, 100⟩ pages ∧
      List.Forall₂ (fun r record => ∃ b url,
          (oneRepoProvider false).client.GetBranch (github.User.GetLogin r.Owner) r.GetName
            r.GetDefaultBranch = .ok b ∧
          selectURL "https" r = some url ∧
          record = mkRepository r url b ∧ record.Branch = b.GetName)
        (pages.flatMap (fun pg => pg.1))
        [⟨"acme", "app", "https://github.com/acme/app.git", "main", "1111", ["team-a"]⟩] ∧
      [(⟨"acme", "app", "https://github.com/acme/app.git", "main", "1111", ["team-a"]⟩ :
        Repository)].length = (pages.flatMap (fun pg => pg.1)).length ∧
      ((∀ owner repo branch b, (oneRepoProvider false).client.GetBranch owner repo branch = .ok b →
          b.GetName = branch) →
        [(⟨"acme", "app", "https://github.com/acme/app.git", "main", "1111", ["team-a"]⟩ :
          Repository)].map (fun record => record.Branch) =
          (pages.flatMap (fun pg => pg.1)).map (fun r => r.GetDefaultBranch)) :=
  listRepos_default_branch 1 (oneRepoProvider false) "https"
    ⟨[⟨"acme", "app", "https://github.com/acme/app.git", "main", "1111", ["team-a"]⟩], none,
      [Call.ListByOrg "acme" ⟨0, 100⟩, Call.GetBranch "acme" "app" "main"]⟩ rfl rfl rfl

theorem listBranchesLoop_chain (client : github.Client) (login name : String) :
    ∀ (pages : List (List github.Branch × github.Response)) (fuel : Nat)
      (opt : github.ListOptions) (branches : List github.Branch) (calls : List Call),
      ServesBranchPages client login name opt pages → pages.length ≤ fuel →
      ∃ calls1, listBranchesLoop client login name fuel opt branches calls =
        some ⟨branches ++ pages.flatMap (fun pg => pg.1), none, calls1⟩ := by
  intro pages
  induction pages with
  | nil => intro fuel opt branches calls hs; exact absurd hs (by simp [ServesBranchPages])
  | cons pg rest ih =>
    intro fuel opt branches calls hs hf
    cases fuel with
    | zero => simp at hf
    | succ fuel =>
      obtain ⟨bsp, resp⟩ := pg
      cases rest with
      | nil =>
        obtain ⟨hl, hn⟩ := hs
        simp only at hn
        exact ⟨calls ++ [Call.ListBranches login name opt], by simp [listBranchesLoop, hl, hn]⟩
      | cons pg1 rest =>
        obtain ⟨hl, hn, hs1⟩ := hs
        simp only at hn hs1
        obtain ⟨calls2, h2⟩ := ih fuel _ (branches ++ bsp)
          (calls ++ [Call.ListBranches login name opt]) hs1 (by simpa using hf)
        refine ⟨calls2, ?_⟩
        simp only [listBranchesLoop, hl, hn, if_false]
        rw [h2]
        simp [List.append_assoc]

/-- C6: with `allBranches = true`, on a chain of repository pages where every
listed repository `r` has its branches served as the finite chain `bpages r`
(followed by `NextPage` until it is 0), `listBranches` returns for `r` all its
branches in the remote's order, and `ListRepos` (with enough fuel for every
chain, or more) returns without error the concatenation, in listing order, of one block per repository: the block of `r`
has one record per branch, in branch order, all with the owner login, name,
selected URL and topics of `r`, the i-th with the i-th branch's name and head
commit SHA. A repository without branches has the empty block and causes no
error. -/
theorem listRepos_all_branches (fuel : Nat) (g : GithubProvider) (cloneProtocol : String)
    (pages : List (List github.Repository × github.Response))
    (bpages : github.Repository → List (List github.Branch × github.Response))
    (hg : g.allBranches = true) (hp : Supported cloneProtocol)
    (hs : ServesPages g ⟨0, 100⟩ pages) (hf : pages.length ≤ fuel)
    (hb : ∀ r ∈ listed pages,
      ServesBranchPages g.client (github.User.GetLogin r.Owner) r.GetName ⟨0, 100⟩ (bpages r) ∧
        (bpages r).length ≤ fuel) :
    (∀ r ∈ listed pages, ∃ calls, listBranches fuel g r =
        some ⟨(bpages r).flatMap (fun pg => pg.1), none, calls⟩) ∧
    ∃ res, (∀ fuel1, fuel ≤ fuel1 → ListRepos fuel1 g cloneProtocol = some res) ∧
      res.err = none ∧
      res.repos = (pages.flatMap (fun pg => pg.1)).flatMap (fun r =>
        ((bpages r).flatMap (fun pg => pg.1)).map (fun b =>
          { Organization := github.User.GetLogin r.Owner
            Repository := r.GetName
            URL := if cloneProtocol = "https" then r.GetCloneURL else r.GetSSHURL
            Branch := b.GetName
            SHA := github.RepositoryCommit.GetSHA b.Commit
            Labels := r.Topics })) ∧
      res.repos.length = ((pages.flatMap (fun pg => pg.1)).map (fun r =>
        ((bpages r).map (fun pg => pg.1.length)).sum)).sum := by
  have hlb : ∀ r ∈ listed pages, ∃ calls, listBranches fuel g r =
      some ⟨(bpages r).flatMap (fun pg => pg.1), none, calls⟩ := by
    intro r hr
    obtain ⟨hch, hlen⟩ := hb r hr
    obtain ⟨calls, hc⟩ := listBranchesLoop_chain g.client _ _ (bpages r) fuel ⟨0, 100⟩ [] []
      hch hlen
    refine ⟨calls, ?_⟩
    unfold listBranches
    rw [if_neg (by simp [hg]), hc]
    simp
  refine ⟨hlb, ?_⟩
  have hres : ∀ r ∈ listed pages, Resolves fuel g r := fun r hr => by
    obtain ⟨calls, hc⟩ := hlb r hr
    exact ⟨_, calls, hc⟩
  obtain ⟨calls1, h1⟩ := listReposLoop_chain fuel g cloneProtocol hp pages fuel ⟨0, 100⟩ [] []
    hs hf hres
  have hrec : [] ++ (listed pages).flatMap (recordsOf fuel g cloneProtocol) =
      (pages.flatMap (fun pg => pg.1)).flatMap (fun r =>
        ((bpages r).flatMap (fun pg => pg.1)).map (fun b =>
          ({ Organization := github.User.GetLogin r.Owner
             Repository := r.GetName
             URL := if cloneProtocol = "https" then r.GetCloneURL else r.GetSSHURL
             Branch := b.GetName
             SHA := github.RepositoryCommit.GetSHA b.Commit
             Labels := r.Topics } : Repository))) := by
    rw [List.nil_append]
    apply List.flatMap_congr
    intro r hr
    obtain ⟨calls, hc⟩ := hlb r hr
    rw [recordsOf_eq (selectURL_supported hp r) hc]
    rfl
  refine ⟨_, fun fuel1 hle => ListRepos_mono g cloneProtocol hle h1, rfl, hrec, ?_⟩
  simp only [hrec, List.length_flatMap, List.length_map]
  congr 1
  apply List.map_congr_left
  intro r _
  simp [List.length_flatMap, Function.comp_def]

/-- C6 at the example of the claim: the branches `main` and `dev` give exactly
two records that differ only in Branch and SHA. -/
theorem listRepos_all_branches_witness :
    ∃ res, ListRepos 1 (oneRepoProvider true) "ssh" = some res ∧ res.err = none ∧
      res.repos =
        [⟨"acme", "app", "git@github.com:acme/app.git", "main", "1111", ["team-a"]⟩,
         ⟨"acme", "app", "git@github.com:acme/app.git", "dev", "2222", ["team-a"]⟩] := by
  obtain ⟨_, res, h, herr, hrepos, _⟩ := listRepos_all_branches 1 (oneRepoProvider true) "ssh"
    [([acmeRepo "app"], ⟨200, 0⟩)]
    (fun _ => [([branchAt "main" "1111", branchAt "dev" "2222"], ⟨200, 0⟩)])
    rfl (by decide) ⟨rfl, rfl⟩ (by decide)
    (fun r _ => ⟨⟨rfl, rfl⟩, Nat.le_refl 1⟩)
  refine ⟨res, h 1 (Nat.le_refl 1), herr, ?_⟩
  rw [hrepos]
  rfl

/-! ## No partial success -/

/-- C7: whenever `ListRepos` returns an error, which is a listing error, the
unknown-protocol error or a branch error, the returned sequence is empty; and
whenever it returns no error it went through a whole chain of pages up to
`NextPage = 0`, every listed repository had its URL selected and its branches
resolved, and the sequence holds the records of every branch of every listed
repository, in order. -/
theorem listRepos_all_or_nothing (fuel : Nat) (g : GithubProvider) (cloneProtocol : String)
    (res : ListResult) (h : ListRepos fuel g cloneProtocol = some res) :
    (∀ e, res.err = some e →
      res.repos = [] ∧
      ((∃ x, e = ListError.listing g.organization x) ∨
        e = ListError.unknownProtocol cloneProtocol ∨
        ∃ login name x, e = ListError.branches login name x)) ∧
    (res.err = none →
      ∃ (pages : List (List github.Repository × github.Response))
        (url : github.Repository → String) (bs : github.Repository → List github.Branch),
        ServesPages g ⟨0, 100⟩ pages ∧
        (∀ r ∈ pages.flatMap (fun pg => pg.1),
          selectURL cloneProtocol r = some (url r) ∧
          ∃ calls, listBranches fuel g r = some ⟨bs r, none, calls⟩) ∧
        res.repos = (pages.flatMap (fun pg => pg.1)).flatMap (fun r =>
          (bs r).map (mkRepository r (url r)))) := by
  constructor
  · intro e herr
    refine ⟨listReposLoop_err_nil fuel g cloneProtocol fuel _ _ _ res h (by simp [herr]), ?_⟩
    rcases listReposLoop_err_kind fuel g cloneProtocol fuel _ _ _ res e h herr with
      hk | ⟨hk, _⟩ | hk
    · exact Or.inl hk
    · exact Or.inr (Or.inl hk)
    · exact Or.inr (Or.inr hk)
  · intro herr
    obtain ⟨pages, hs, _, hall, heq⟩ :=
      listReposLoop_success fuel g cloneProtocol fuel _ _ _ res h herr
    refine ⟨pages, urlOf cloneProtocol, branchesOf fuel g, hs, ?_, ?_⟩
    · intro r hr
      obtain ⟨⟨branches, calls, hb⟩, hp⟩ := hall r hr
      refine ⟨by simp [urlOf, selectURL_supported hp], calls, ?_⟩
      simp [branchesOf, hb]
    · rw [heq, List.nil_append]
      rfl

/-- C7 on a remote where the first page and the first repository of the second
page are processed before a branch lookup fails: nothing is returned but the
error. -/
theorem listRepos_all_or_nothing_witness :
    ListRepos 2 failingProvider "https" =
        some ⟨[], some (ListError.branches "acme" "lib" "502 Bad Gateway"),
          [Call.ListByOrg "acme" ⟨0, 100⟩, Call.GetBranch "acme" "app" "main",
            Call.ListByOrg "acme" ⟨2, 100⟩, Call.GetBranch "acme" "lib" "main"]⟩ ∧
      ([] : List Repository) = [] ∧
      ((∃ x, ListError.branches "acme" "lib" "502 Bad Gateway" =
          ListError.listing failingProvider.organization x) ∨
        ListError.branches "acme" "lib" "502 Bad Gateway" = ListError.unknownProtocol "https" ∨
        ∃ login name x, ListError.branches "acme" "lib" "502 Bad Gateway" =
          ListError.branches login name x) :=
  ⟨by decide,
    (listRepos_all_or_nothing 2 failingProvider "https"
      ⟨[], some (ListError.branches "acme" "lib" "502 Bad Gateway"),
        [Call.ListByOrg "acme" ⟨0, 100⟩, Call.GetBranch "acme" "app" "main",
          Call.ListByOrg "acme" ⟨2, 100⟩, Call.GetBranch "acme" "lib" "main"]⟩ (by decide)).1
      (ListError.branches "acme" "lib" "502 Bad Gateway") rfl⟩

/-! ## Clone URL -/

theorem rangeRepos_default_eq_ssh (bfuel : Nat) (g : GithubProvider) :
    ∀ (rs : List github.Repository) (repos : List Repository) (calls : List Call),
      rangeRepos bfuel g "" rs repos calls = rangeRepos bfuel g "ssh" rs repos calls := by
  intro rs
  induction rs with
  | nil => intro repos calls; rfl
  | cons r rest ih =>
    intro repos calls
    have h1 : selectURL "" r = some r.GetSSHURL := by simp [selectURL]
    have h2 : selectURL "ssh" r = some r.GetSSHURL := by simp [selectURL]
    cases hb : listBranches bfuel g r with
    | none => simp [rangeRepos, h1, h2, hb]
    | some out =>
      obtain ⟨branches, err, bcalls⟩ := out
      cases err with
      | some e =>
        rw [rangeRepos_cons_fail bfuel g "" r rest repos calls h1 hb,
          rangeRepos_cons_fail bfuel g "ssh" r rest repos calls h2 hb]
      | none =>
        rw [rangeRepos_cons_ok bfuel g "" r rest repos calls h1 hb,
          rangeRepos_cons_ok bfuel g "ssh" r rest repos calls h2 hb]
        exact ih _ _

theorem listReposLoop_default_eq_ssh (bfuel : Nat) (g : GithubProvider) :
    ∀ (fuel : Nat) (opt : github.ListOptions) (repos : List Repository) (calls : List Call),
      listReposLoop bfuel g "" fuel opt repos calls =
        listReposLoop bfuel g "ssh" fuel opt repos calls := by
  intro fuel
  induction fuel with
  | zero => intro opt repos calls; rfl
  | succ fuel ih =>
    intro opt repos calls
    simp only [listReposLoop, rangeRepos_default_eq_ssh, ih]

/-- C8: whenever `ListRepos` succeeds, every emitted record is built from a
repository of the pages it went through, and its URL is that repository's SSH
clone URL when the protocol is `""` or `"ssh"` and its HTTPS clone URL when the
protocol is `"https"`; and `ListRepos` with `""` and with `"ssh"` return the
same result against the same remote. -/
theorem listRepos_url (fuel : Nat) (g : GithubProvider) (cloneProtocol : String) :
    (∀ res, ListRepos fuel g cloneProtocol = some res → res.err = none →
      ∃ pages, ServesPages g ⟨0, 100⟩ pages ∧
        ∀ record ∈ res.repos, ∃ r ∈ pages.flatMap (fun pg => pg.1), ∃ b,
          record = mkRepository r record.URL b ∧
          (cloneProtocol = "" ∨ cloneProtocol = "ssh" → record.URL = r.GetSSHURL) ∧
          (cloneProtocol = "https" → record.URL = r.GetCloneURL)) ∧
    ListRepos fuel g "" = ListRepos fuel g "ssh" := by
  constructor
  · intro res h herr
    obtain ⟨pages, hs, _, hall, heq⟩ :=
      listReposLoop_success fuel g cloneProtocol fuel _ _ _ res h herr
    refine ⟨pages, hs, ?_⟩
    intro record hrec
    rw [heq, List.nil_append, List.mem_flatMap] at hrec
    obtain ⟨r, hr, hin⟩ := hrec
    obtain ⟨⟨branches, calls, hb⟩, hp⟩ := hall r hr
    rw [recordsOf_eq (selectURL_supported hp r) hb, List.mem_map] at hin
    obtain ⟨b, _, rfl⟩ := hin
    refine ⟨r, hr, b, rfl, ?_, ?_⟩
    · rintro (rfl | rfl) <;> simp [mkRepository]
    · rintro rfl
      simp [mkRepository]
  · exact listReposLoop_default_eq_ssh fuel g fuel _ _ _

theorem listRepos_url_witness :
    (∃ pages, ServesPages (oneRepoProvider false) ⟨0, 100⟩ pages ∧
      ∀ record ∈
          [(⟨"acme", "app", "https://github.com/acme/app.git", "main", "1111", ["team-a"]⟩ :
            Repository)],
        ∃ r ∈ pages.flatMap (fun pg => pg.1), ∃ b,
          record = mkRepository r record.URL b ∧
          ("https" = "" ∨ "https" = "ssh" → record.URL = r.GetSSHURL) ∧
          ("https" = "https" → record.URL = r.GetCloneURL)) ∧
      ListRepos 1 (oneRepoProvider false) "" = ListRepos 1 (oneRepoProvider false) "ssh" :=
  ⟨(listRepos_url 1 (oneRepoProvider false) "https").1
      ⟨[⟨"acme", "app", "https://github.com/acme/app.git", "main", "1111", ["team-a"]⟩], none,
        [Call.ListByOrg "acme" ⟨0, 100⟩, Call.GetBranch "acme" "app" "main"]⟩ rfl rfl,
    (listRepos_url 1 (oneRepoProvider false) "https").2⟩

/-! ## Empty organization -/

/-- C9: for an organization with zero repositories, that is, when the remote
serves the listing as a finite chain of pages with zero results (a single page
with `NextPage` 0, or several empty pages linked by their cursors), `ListRepos`
terminates, with fuel for each page or more, and returns the empty sequence and
no error, for every clone protocol; it makes one listing call per page and no
other call. -/
theorem listRepos_empty_org (fuel : Nat) (g : GithubProvider) (cloneProtocol : String)
    (pages : List (List github.Repository × github.Response))
    (hs : ServesPages g ⟨0, 100⟩ pages) (hempty : ∀ pg ∈ pages, pg.1 = [])
    (hf : pages.length ≤ fuel) :
    ∃ res, (∀ fuel1, fuel ≤ fuel1 → ListRepos fuel1 g cloneProtocol = some res) ∧
      res.repos = [] ∧ res.err = none ∧
      res.calls.length = pages.length ∧
      ∀ c ∈ res.calls, ∃ o, c = Call.ListByOrg g.organization o := by
  obtain ⟨calls1, h1, hlen, hall⟩ := listReposLoop_empty_chain fuel g cloneProtocol pages fuel
    ⟨0, 100⟩ [] [] hs hempty hf
  refine ⟨_, fun fuel1 hle => ListRepos_mono g cloneProtocol hle h1, rfl, rfl,
    by simp [hlen], ?_⟩
  intro c hc
  exact hall c (by simpa using hc)

/-- C9 on an organization without repositories served as two empty pages, and
on one served as a single empty page. -/
theorem listRepos_empty_org_witness :
    (∃ res, (∀ fuel1, 2 ≤ fuel1 → ListRepos fuel1 twoEmptyPagesProvider "https" = some res) ∧
      res.repos = [] ∧ res.err = none ∧
      res.calls.length = 2 ∧
      ∀ c ∈ res.calls, ∃ o, c = Call.ListByOrg "acme" o) ∧
    (∃ res, (∀ fuel1, 1 ≤ fuel1 → ListRepos fuel1 emptyOrgProvider "" = some res) ∧
      res.repos = [] ∧ res.err = none ∧
      res.calls.length = 1 ∧
      ∀ c ∈ res.calls, ∃ o, c = Call.ListByOrg "acme" o) :=
  ⟨listRepos_empty_org 2 twoEmptyPagesProvider "https" [([], ⟨200, 2⟩), ([], ⟨200, 0⟩)]
      ⟨rfl, by decide, rfl, rfl⟩
      (by intro pg hpg; simp at hpg; rcases hpg with rfl | rfl <;> rfl) (by decide),
    listRepos_empty_org 1 emptyOrgProvider "" [([], ⟨200, 0⟩)] ⟨rfl, rfl⟩
      (by intro pg hpg; simp at hpg; subst hpg; rfl) (by decide)⟩

/-! ## Branch resolution failure -/

theorem listBranchesLoop_fail (client : github.Client) (login name : String) :
    ∀ (fuel : Nat) (opt : github.ListOptions) (branches : List github.Branch)
      (calls : List Call) (bs : List github.Branch) (e : String) (bcalls : List Call),
      listBranchesLoop client login name fuel opt branches calls = some ⟨bs, some e, bcalls⟩ →
      bs = [] ∧ ∃ c, bcalls.getLast? = some c ∧ Call.IsBranchCallFor login name c ∧
        Call.FailsWith client e c := by
  intro fuel
  induction fuel with
  | zero => intro opt branches calls bs e bcalls h; simp [listBranchesLoop] at h
  | succ fuel ih =>
    intro opt branches calls bs e bcalls h
    cases hl : client.ListBranches login name opt with
    | error x =>
      simp only [listBranchesLoop, hl, Option.some.injEq, BranchesResult.mk.injEq] at h
      obtain ⟨h1, h2, h3⟩ := h
      subst h1 h3
      cases h2
      exact ⟨rfl, _, List.getLast?_concat _, ⟨rfl, rfl⟩, hl⟩
    | ok pg =>
      obtain ⟨bsp, resp⟩ := pg
      by_cases hn : resp.NextPage = 0
      · simp [listBranchesLoop, hl, hn] at h
      · simp only [listBranchesLoop, hl, hn, if_false] at h
        exact ih _ _ _ _ _ _ h

/-- A failed branch resolution returns no branch, and the last call it made is
the call for that repository which the remote answered with the error. -/
theorem listBranches_fail {bfuel : Nat} {g : GithubProvider} {r : github.Repository}
    {bs : List github.Branch} {e : String} {bcalls : List Call}
    (h : listBranches bfuel g r = some ⟨bs, some e, bcalls⟩) :
    bs = [] ∧ ∃ c, bcalls.getLast? = some c ∧
      Call.IsBranchCallFor (github.User.GetLogin r.Owner) r.GetName c ∧
      Call.FailsWith g.client e c := by
  unfold listBranches at h
  by_cases hg : g.allBranches = false
  · rw [if_pos hg] at h
    cases hb : g.client.GetBranch (github.User.GetLogin r.Owner) r.GetName r.GetDefaultBranch with
    | ok b => rw [hb] at h; simp at h
    | error x =>
      rw [hb] at h
      simp only [Option.some.injEq, BranchesResult.mk.injEq] at h
      obtain ⟨h1, h2, h3⟩ := h
      subst h1 h3
      cases h2
      exact ⟨rfl, _, rfl, ⟨rfl, rfl⟩, hb⟩
  · rw [if_neg hg] at h
    exact listBranchesLoop_fail _ _ _ _ _ _ _ _ _ _ h

theorem rangeRepos_fail_at (bfuel : Nat) (g : GithubProvider) (cloneProtocol : String)
    (hp : Supported cloneProtocol) (r : github.Repository) (after : List github.Repository)
    {bs : List github.Branch} {e : String} {bcalls : List Call}
    (hfail : listBranches bfuel g r = some ⟨bs, some e, bcalls⟩) :
    ∀ (before : List github.Repository) (repos : List Repository) (calls : List Call),
      (∀ x ∈ before, Resolves bfuel g x) →
      ∃ calls1, rangeRepos bfuel g cloneProtocol (before ++ r :: after) repos calls =
        some (Sum.inl (ListError.branches (github.User.GetLogin r.Owner) r.GetName e),
          calls1 ++ bcalls) := by
  intro before
  induction before with
  | nil =>
    intro repos calls _
    exact ⟨calls, rangeRepos_cons_fail bfuel g cloneProtocol r after repos calls
      (selectURL_supported hp r) hfail⟩
  | cons x rest ih =>
    intro repos calls hok
    obtain ⟨branches, xcalls, hx⟩ := hok x (List.mem_cons_self _ _)
    obtain ⟨calls1, h1⟩ := ih (repos ++ branches.map (mkRepository x _)) (calls ++ xcalls)
      (fun y hy => hok y (List.mem_cons_of_mem _ hy))
    refine ⟨calls1, ?_⟩
    rw [List.cons_append,
      rangeRepos_cons_ok bfuel g cloneProtocol x _ repos calls (selectURL_supported hp x) hx]
    exact h1

theorem listReposLoop_fail_at (bfuel : Nat) (g : GithubProvider) (cloneProtocol : String)
    (hp : Supported cloneProtocol) (r : github.Repository)
    (before after : List github.Repository) (resp : github.Response)
    (opt1 : github.ListOptions)
    {bs : List github.Branch} {e : String} {bcalls : List Call}
    (hl : g.client.ListByOrg g.organization opt1 = .ok (before ++ r :: after, resp))
    (hbefore : ∀ x ∈ before, Resolves bfuel g x)
    (hfail : listBranches bfuel g r = some ⟨bs, some e, bcalls⟩) :
    ∀ (pages : List (List github.Repository × github.Response)) (fuel : Nat)
      (opt : github.ListOptions) (repos : List Repository) (calls : List Call),
      ServesLeading g opt pages opt1 → pages.length < fuel →
      (∀ x ∈ listed pages, Resolves bfuel g x) →
      ∃ calls1, listReposLoop bfuel g cloneProtocol fuel opt repos calls =
        some ⟨[], some (ListError.branches (github.User.GetLogin r.Owner) r.GetName e),
          calls1 ++ bcalls⟩ := by
  intro pages
  induction pages with
  | nil =>
    intro fuel opt repos calls hs hf _
    obtain ⟨n, rfl⟩ : ∃ n, fuel = n + 1 := ⟨fuel - 1, by simp at hf; omega⟩
    have hopt : opt1 = opt := hs
    subst hopt
    obtain ⟨calls1, h1⟩ := rangeRepos_fail_at bfuel g cloneProtocol hp r after hfail before repos
      (calls ++ [Call.ListByOrg g.organization opt1]) hbefore
    exact ⟨calls1, listReposLoop_abort bfuel g cloneProtocol n opt1 repos calls hl h1⟩
  | cons pg rest ih =>
    intro fuel opt repos calls hs hf hok
    obtain ⟨n, rfl⟩ : ∃ n, fuel = n + 1 := ⟨fuel - 1, by simp at hf; omega⟩
    obtain ⟨hpg, hn, hs1⟩ := hs
    have hpgok : ∀ x ∈ pg.1, Resolves bfuel g x := fun x hx =>
      hok x (by rw [listed_cons]; exact List.mem_append_left _ hx)
    obtain ⟨calls1, h1⟩ := rangeRepos_ok bfuel g cloneProtocol hp pg.1 repos
      (calls ++ [Call.ListByOrg g.organization opt]) hpgok
    obtain ⟨calls2, h2⟩ := ih n _ (repos ++ pg.1.flatMap (recordsOf bfuel g cloneProtocol))
      calls1 hs1 (by simpa using hf)
      (fun x hx => hok x (by rw [listed_cons]; exact List.mem_append_right _ hx))
    refine ⟨calls2, ?_⟩
    rw [listReposLoop_next bfuel g cloneProtocol n opt repos calls hpg h1 hn]
    exact h2

/-- C10: with a supported protocol, let the listing reach repository `r` (the
leading `pages` are served with non-zero `NextPage`, the next page holds
`before ++ r :: after`), let branch resolution succeed for every repository
listed before `r` and fail with error `e` for `r`. Then `ListRepos` (with that
fuel or more) returns the error whose message is `error listing branches for <login>/<name>: <e>` with
the owner login and name of `r`, returns no record, and the calls of the run
end with those of the failed resolution, the last one being the branch call for
`r` that the remote answered with `e`: nothing is requested after the failure. -/
theorem listRepos_branch_failure (fuel : Nat) (g : GithubProvider) (cloneProtocol : String)
    (pages : List (List github.Repository × github.Response)) (opt1 : github.ListOptions)
    (before after : List github.Repository) (r : github.Repository) (resp : github.Response)
    (bs : List github.Branch) (e : String) (bcalls : List Call)
    (hp : Supported cloneProtocol)
    (hs : ServesLeading g ⟨0, 100⟩ pages opt1) (hf : pages.length < fuel)
    (hl : g.client.ListByOrg g.organization opt1 = .ok (before ++ r :: after, resp))
    (hok : ∀ x ∈ pages.flatMap (fun pg => pg.1) ++ before, Resolves fuel g x)
    (hfail : listBranches fuel g r = some ⟨bs, some e, bcalls⟩) :
    ∃ res, (∀ fuel1, fuel ≤ fuel1 → ListRepos fuel1 g cloneProtocol = some res) ∧
      res.repos = [] ∧
      res.err = some (ListError.branches (github.User.GetLogin r.Owner) r.GetName e) ∧
      (∀ err, res.err = some err → err.message =
        "error listing branches for " ++ github.User.GetLogin r.Owner ++ "/" ++ r.GetName ++
          ": " ++ e) ∧
      (∃ calls1, res.calls = calls1 ++ bcalls) ∧
      ∃ c, res.calls.getLast? = some c ∧
        Call.IsBranchCallFor (github.User.GetLogin r.Owner) r.GetName c ∧
        Call.FailsWith g.client e c := by
  obtain ⟨calls1, h1⟩ := listReposLoop_fail_at fuel g cloneProtocol hp r before after resp opt1
    hl (fun x hx => hok x (List.mem_append_right _ hx)) hfail pages fuel ⟨0, 100⟩ [] [] hs hf
    (fun x hx => hok x (List.mem_append_left _ hx))
  obtain ⟨_, c, hlast, hfor, hwith⟩ := listBranches_fail hfail
  refine ⟨_, fun fuel1 hle => ListRepos_mono g cloneProtocol hle h1, rfl, rfl, ?_,
    ⟨calls1, rfl⟩, c, ?_, hfor, hwith⟩
  · intro err herr
    simp only [Option.some.injEq] at herr
    subst herr
    rfl
  · have hne : bcalls ≠ [] := by
      intro hnil
      rw [hnil] at hlast
      simp at hlast
    simp only [List.getLast?_append_of_ne_nil _ hne, hlast]

/-- C10 on a remote where `acme/app` (first page) resolves and `acme/lib`
(second page, before `acme/web`) fails: the error names `acme/lib` and the run
ends with the failed lookup. -/
theorem listRepos_branch_failure_witness :
    ∃ res, (∀ fuel1, 2 ≤ fuel1 → ListRepos fuel1 failingProvider "ssh" = some res) ∧
      res.repos = [] ∧
      res.err = some (ListError.branches "acme" "lib" "502 Bad Gateway") ∧
      (∀ err, res.err = some err → err.message =
        "error listing branches for acme/lib: 502 Bad Gateway") ∧
      (∃ calls1, res.calls = calls1 ++ [Call.GetBranch "acme" "lib" "main"]) ∧
      ∃ c, res.calls.getLast? = some c ∧
        Call.IsBranchCallFor "acme" "lib" c ∧
        Call.FailsWith failingProvider.client "502 Bad Gateway" c :=
  listRepos_branch_failure 2 failingProvider "ssh" [([acmeRepo "app"], ⟨200, 2⟩)] ⟨2, 100⟩
    [] [acmeRepo "web"] (acmeRepo "lib") ⟨200, 0⟩ [] "502 Bad Gateway"
    [Call.GetBranch "acme" "lib" "main"] (by decide) ⟨rfl, by decide, rfl⟩ (by decide) rfl
    (by
      intro x hx
      simp at hx
      subst hx
      exact ⟨_, _, rfl⟩)
    (by decide)

end scm_provider
